import Mathlib

/-!
Shallow embedding of the semantic index subsystem of phi-assistant:
the tool ranking engine (embeddings/tool_embeddings.py), the FAISS
persistence and validation layer (embeddings/faiss_persistence.py),
and the message context retriever (embeddings/message_embeddings.py).

Python floats are modelled as rationals, FAISS search results as
explicit (position, distance) lists produced by a deterministic search
function, and on-disk artifacts as explicit records.  Definitions
follow the Python source; definitions whose names end in Spec restate
the specification text and are compared with the source-derived ones.
-/

namespace PhiAssistant

/-- Python str.split() with no separator argument: split on whitespace
runs and drop empty pieces. -/
def pyWords (s : String) : List String :=
  (s.split Char.isWhitespace).filter (fun w => w ≠ "")

/-- The query_examples column is either a plain string or a list of
strings; tool_embeddings.py branches on the runtime type. -/
inductive QueryExamples where
  | str : String → QueryExamples
  | list : List String → QueryExamples
deriving DecidableEq, Repr

/-- One row of the tools table as loaded by load_db_tools. -/
structure Tool where
  id : Nat
  name : String
  description : String
  python_function : String
  query_examples : QueryExamples
deriving DecidableEq, Repr

/-- tool_tokens in query_tools_optimized: sum of token counts over all
query examples when the column is a list, token count of the single
string otherwise. -/
def toolTokenCount (qe : QueryExamples) : Nat :=
  match qe with
  | .list l => (l.map (fun e => (pyWords e).length)).sum
  | .str s => (pyWords s).length

/-- tool_words in query_tools_optimized: the case-insensitive
whitespace-tokenized word set of the query examples. -/
def toolWordSet (qe : QueryExamples) : Finset String :=
  match qe with
  | .list l => l.foldl (fun acc e => acc ∪ (pyWords e.toLower).toFinset) ∅
  | .str s => (pyWords s.toLower).toFinset

/-- A scored tool candidate as built by query_tools_optimized or by
the fallback search.  Fields that the fallback path never writes into
the candidate dictionary are Options. -/
structure Candidate where
  tool : Tool
  semantic_score : ℚ
  combined_score : ℚ
  distance : ℚ
  length_score : Option ℚ
  description_factor : Option ℚ
  keyword_bonus : Option ℚ
  llm_priority : Option String
deriving DecidableEq, Repr

/-- The in-memory state of ToolEmbeddingsManager that the query path
reads: the position-to-tool mapping, its size, and the FAISS index
search viewed as a deterministic function from a query string and a
neighbor count k to the zipped (position, distance) result list.  The
sentinel position -1 models FAISS padding. -/
structure ToolIndexState where
  tool_mapping : Int → Tool
  nTools : Nat
  search : String → Nat → List (Int × ℚ)

/-- The conservative distance threshold hardcoded in
query_tools_optimized (0.8). -/
def conservative_threshold : ℚ := 4/5

/-- The body of the phase-2 loop of query_tools_optimized for one
(position, distance) pair: the sentinel/threshold skip, the early
skip of low semantic scores, and the multi-factor scoring. -/
def scoreNeighbor (user_query : String) (min_semantic_score : ℚ)
    (mapping : Int → Tool) (i : Int) (dist : ℚ) : Option Candidate :=
  if i = -1 ∨ conservative_threshold < dist then none
  else
    let tool := mapping i
    let semantic_score : ℚ := max 0 (1 - dist / conservative_threshold)
    if semantic_score < min_semantic_score then none
    else
      let query_tokens : ℚ := ((pyWords user_query).length : ℚ)
      let tool_tokens : ℚ := (toolTokenCount tool.query_examples : ℚ)
      let description_tokens : ℚ := ((pyWords tool.description).length : ℚ)
      let length_ratio : ℚ := query_tokens / max 1 tool_tokens
      let length_score : ℚ := 1 - |1 - min 3 (max (33/100) length_ratio)| / 2
      let description_factor : ℚ := min 1 (description_tokens / max 1 query_tokens)
      let query_words : Finset String := (pyWords user_query.toLower).toFinset
      let tool_words : Finset String := toolWordSet tool.query_examples
      let overlap_ratio : ℚ := ((query_words ∩ tool_words).card : ℚ) / max 1 ((query_words.card : ℚ))
      let keyword_bonus : ℚ := overlap_ratio * (1/5)
      let combined_score : ℚ :=
        (1/2) * semantic_score + (1/4) * length_score +
          (3/20) * description_factor + (1/10) * keyword_bonus
      some { tool := tool
             semantic_score := semantic_score
             combined_score := combined_score
             distance := dist
             length_score := some length_score
             description_factor := some description_factor
             keyword_bonus := some keyword_bonus
             llm_priority := none }

/-- Phase 1 and 2 of query_tools_optimized: search min(15, 2 * number
of tools) neighbors and run the scoring loop over the result. -/
def primaryCandidates (st : ToolIndexState) (user_query : String)
    (min_semantic_score : ℚ) : List Candidate :=
  (st.search user_query (min 15 (2 * st.nTools))).filterMap
    (fun p => scoreNeighbor user_query min_semantic_score st.tool_mapping p.1 p.2)

/-- The confidence tier assignment of phase 4 of query_tools_optimized. -/
def llmPriority (combined_score : ℚ) : String :=
  if 4/5 ≤ combined_score then "high_confidence"
  else if 3/5 ≤ combined_score then "standard"
  else "low_confidence"

/-- The method _fallback_search of ToolEmbeddingsManager: search
2 * max_candidates neighbors, keep non-sentinel neighbors with
distance at most 1.2 whose recomputed semantic score meets the relaxed
threshold, tag them fallback with combined = semantic, and truncate to
max_candidates. -/
def fallbackScoreNeighbor (st : ToolIndexState) (relaxed_threshold : ℚ)
    (p : Int × ℚ) : Option Candidate :=
  if p.1 ≠ -1 ∧ p.2 ≤ 6/5 then
    let semantic_score : ℚ := max 0 (1 - p.2 / (6/5))
    if relaxed_threshold ≤ semantic_score then
      some { tool := st.tool_mapping p.1
             semantic_score := semantic_score
             combined_score := semantic_score
             distance := p.2
             length_score := none
             description_factor := none
             keyword_bonus := none
             llm_priority := some "fallback" }
    else none
  else none

def fallback_search (st : ToolIndexState) (user_query : String)
    (relaxed_threshold : ℚ) (max_candidates : Nat) : List Candidate :=
  ((st.search user_query (max_candidates * 2)).filterMap
    (fallbackScoreNeighbor st relaxed_threshold)).take max_candidates

/-- The comparison used by the stable phase-3 sort of
query_tools_optimized: a may stay before b when b's combined score is
at most a's (Python list sort with reverse = True is stable, so equal
combined scores keep their original order). -/
def combinedDesc (a b : Candidate) : Bool :=
  decide (b.combined_score ≤ a.combined_score)

/-- The method query_tools_optimized of ToolEmbeddingsManager.  The
Python defaults are max_candidates = 3 and min_semantic_score = 0.4.
The phase-3 sort is the stable Python list sort by combined score
descending; phase 4 assigns tiers and re-checks the semantic minimum. -/
def query_tools_optimized (st : ToolIndexState) (user_query : String)
    (max_candidates : Nat) (min_semantic_score : ℚ) : List Candidate :=
  let candidates := primaryCandidates st user_query min_semantic_score
  if candidates = [] then
    fallback_search st user_query (min_semantic_score * (1/2)) max_candidates
  else
    let sorted := candidates.mergeSort combinedDesc
    let final_candidates := sorted.take max_candidates
    (final_candidates.map
        (fun c => { c with llm_priority := some (llmPriority c.combined_score) })).filter
      (fun c => decide (min_semantic_score ≤ c.semantic_score))

/-- The legacy method query_tools of ToolEmbeddingsManager: it calls
query_tools_optimized with max_candidates = k and min_semantic_score
0.4. -/
def query_tools (st : ToolIndexState) (user_query : String) (k : Nat) : List Candidate :=
  query_tools_optimized st user_query k (2/5)

/-- Restatement of the four scoring factors in the words of the
specification (section 4.3 steps 3 and 4), used to compare the source
loop against the spec formulas: semantic, length score with the ratio
clamped to the interval from 0.33 to 3.0, description factor, keyword
bonus, and the weighted blend. -/
def fourFactorSpec (user_query : String) (tool : Tool) (d : ℚ) : Candidate :=
  let semantic : ℚ := max 0 (1 - d / (4/5))
  let ratio : ℚ := ((pyWords user_query).length : ℚ) / max 1 ((toolTokenCount tool.query_examples : ℚ))
  let clamped : ℚ := min 3 (max (33/100) ratio)
  let length_score : ℚ := 1 - |1 - clamped| / 2
  let description_factor : ℚ :=
    min 1 (((pyWords tool.description).length : ℚ) / max 1 (((pyWords user_query).length : ℚ)))
  let query_words : Finset String := (pyWords user_query.toLower).toFinset
  let keyword_bonus : ℚ :=
    (1/5) * (((query_words ∩ toolWordSet tool.query_examples).card : ℚ) / max 1 ((query_words.card : ℚ)))
  { tool := tool
    semantic_score := semantic
    combined_score :=
      (50/100) * semantic + (25/100) * length_score +
        (15/100) * description_factor + (10/100) * keyword_bonus
    distance := d
    length_score := some length_score
    description_factor := some description_factor
    keyword_bonus := some keyword_bonus
    llm_priority := none }

lemma fourFactorSpec_semantic (q : String) (t : Tool) (d : ℚ) :
    (fourFactorSpec q t d).semantic_score = max 0 (1 - d / (4/5)) := rfl

lemma scoreNeighbor_skip (q : String) (ms : ℚ) (mapping : Int → Tool) (i : Int) (d : ℚ)
    (h : i = -1 ∨ conservative_threshold < d) :
    scoreNeighbor q ms mapping i d = none := by
  unfold scoreNeighbor
  rw [if_pos h]

lemma scoreNeighbor_keep (q : String) (ms : ℚ) (mapping : Int → Tool) (i : Int) (d : ℚ)
    (h1 : ¬ i = -1) (h2 : d ≤ 4/5) :
    scoreNeighbor q ms mapping i d =
      if max 0 (1 - d / (4/5)) < ms then none else some (fourFactorSpec q (mapping i) d) := by
  unfold scoreNeighbor fourFactorSpec conservative_threshold
  rw [if_neg (not_or.mpr ⟨h1, not_lt.mpr h2⟩)]
  by_cases hms : max 0 (1 - d / (4/5)) < ms
  · rw [if_pos hms, if_pos hms]
  · rw [if_neg hms, if_neg hms]
    simp only [Option.some.injEq, Candidate.mk.injEq, Option.some.injEq, true_and, and_true]
    refine ⟨by ring, by rw [mul_comm]⟩

/-- C1: on the primary path, every neighbor with distance at most the
conservative threshold 0.8 is scored with exactly the four factors of
the specification (semantic, length score with the ratio clamped to
the interval from 0.33 to 3.0, description factor, keyword bonus, and
the 0.50/0.25/0.15/0.10 blend), the minimum-semantic filter being the
only further selection; neighbors with distance above 0.8 (and the
FAISS sentinel -1) are discarded and never scored. -/
theorem primary_four_factor_scoring (st : ToolIndexState) (q : String) (ms : ℚ) :
    (primaryCandidates st q ms =
      ((((st.search q (min 15 (2 * st.nTools))).filter
          (fun p => decide (¬ p.1 = -1) && decide (p.2 ≤ (4:ℚ)/5))).map
          (fun p => fourFactorSpec q (st.tool_mapping p.1) p.2)).filter
        (fun c => decide (ms ≤ c.semantic_score))))
    ∧ (∀ p ∈ st.search q (min 15 (2 * st.nTools)), (4:ℚ)/5 < p.2 →
        scoreNeighbor q ms st.tool_mapping p.1 p.2 = none) := by
  constructor
  · unfold primaryCandidates
    generalize st.search q (min 15 (2 * st.nTools)) = l
    induction l with
    | nil => rfl
    | cons p l ih =>
      by_cases h1 : p.1 = -1
      · rw [List.filterMap_cons, scoreNeighbor_skip q ms st.tool_mapping p.1 p.2 (Or.inl h1)]
        simp [List.filter_cons, h1, ih]
      · by_cases h2 : p.2 ≤ (4:ℚ)/5
        · rw [List.filterMap_cons, scoreNeighbor_keep q ms st.tool_mapping p.1 p.2 h1 h2]
          by_cases hms : max 0 (1 - p.2 / (4/5)) < ms
          · rw [if_pos hms]
            simp [List.filter_cons, h1, h2, fourFactorSpec_semantic, not_le.mpr hms, ih]
          · rw [if_neg hms]
            simp [List.filter_cons, h1, h2, fourFactorSpec_semantic, not_lt.mp hms, ih]
        · rw [List.filterMap_cons,
            scoreNeighbor_skip q ms st.tool_mapping p.1 p.2 (Or.inr (not_le.mp h2))]
          simp [List.filter_cons, h2, ih]
  · intro p _ hgt
    exact scoreNeighbor_skip q ms st.tool_mapping p.1 p.2 (Or.inr hgt)

/-- A concrete tool used by witness instances. -/
def toolEx : Tool :=
  { id := 1
    name := "weather"
    description := "get the current weather report"
    python_function := "weather_fn"
    query_examples := .list ["what is the weather"] }

/-- A concrete tool index state used by witness instances: one tool,
and a search function returning one close neighbor for two-neighbor
searches and one distant neighbor otherwise. -/
def stEx : ToolIndexState :=
  { tool_mapping := fun _ => toolEx
    nTools := 1
    search := fun _ k => if k = 2 then [((0:Int), (9:ℚ)/10)] else [((0:Int), (1:ℚ)/10)] }

theorem primary_four_factor_scoring_witness :
    scoreNeighbor "check weather" (2/5) stEx.tool_mapping 0 (9/10) = none :=
  (primary_four_factor_scoring stEx "check weather" (2/5)).2 ((0:Int), (9:ℚ)/10)
    (by simp [stEx]) (by norm_num)

/-- C10: the legacy entry point query_tools is a pure delegation to
query_tools_optimized with max_candidates = k and the default minimum
semantic score 0.4, for every index state (hence any fixed index and
deterministic embedding provider), query and k. -/
theorem query_tools_delegates (st : ToolIndexState) (q : String) (k : Nat) :
    query_tools st q k = query_tools_optimized st q k (2/5) := rfl

/-- The candidate record built by the fallback loop for one accepted
neighbor. -/
def fallbackCandidate (st : ToolIndexState) (p : Int × ℚ) : Candidate :=
  { tool := st.tool_mapping p.1
    semantic_score := max 0 (1 - p.2 / (6/5))
    combined_score := max 0 (1 - p.2 / (6/5))
    distance := p.2
    length_score := none
    description_factor := none
    keyword_bonus := none
    llm_priority := some "fallback" }

/-- Restatement of the fallback acceptance rule in the words of the
specification: search with the looser threshold 1.2, recompute the
semantic score against it, and accept any non-sentinel candidate whose
semantic score meets the relaxed threshold. -/
def fallbackAcceptSpec (st : ToolIndexState) (user_query : String)
    (relaxed_threshold : ℚ) (max_candidates : Nat) : List Candidate :=
  ((st.search user_query (max_candidates * 2)).filter
      (fun p => decide (¬ p.1 = -1) && decide (p.2 ≤ (6:ℚ)/5) &&
        decide (relaxed_threshold ≤ max 0 (1 - p.2 / (6/5))))).map
    (fallbackCandidate st)

lemma filterMap_guard_eq_map_filter {α β : Type} (cond : α → Bool) (g : α → β) (l : List α) :
    (l.filterMap (fun a => if cond a then some (g a) else none)) = (l.filter cond).map g := by
  induction l with
  | nil => rfl
  | cons a l ih =>
    by_cases h : cond a = true
    · simp [List.filterMap_cons, List.filter_cons, h, ih]
    · simp [List.filterMap_cons, List.filter_cons, h, ih]

lemma fallbackScoreNeighbor_eq (st : ToolIndexState) (r : ℚ) (p : Int × ℚ) :
    fallbackScoreNeighbor st r p =
      if (decide (¬ p.1 = -1) && decide (p.2 ≤ (6:ℚ)/5) &&
          decide (r ≤ max 0 (1 - p.2 / (6/5)))) = true
      then some (fallbackCandidate st p) else none := by
  unfold fallbackScoreNeighbor fallbackCandidate
  by_cases h1 : p.1 = -1
  · rw [if_neg (by simp [h1]), if_neg (by simp [h1])]
  · by_cases h2 : p.2 ≤ (6:ℚ)/5
    · rw [if_pos ⟨h1, h2⟩]
      by_cases h3 : r ≤ max 0 (1 - p.2 / (6/5))
      · rw [if_pos h3, if_pos (by simp [h1, h2, h3])]
      · rw [if_neg h3, if_neg (by simp [h1, h2, h3])]
    · rw [if_neg (by simp [h2]), if_neg (by simp [h2])]

lemma fallback_search_eq_spec (st : ToolIndexState) (q : String) (r : ℚ) (m : Nat) :
    fallback_search st q r m = (fallbackAcceptSpec st q r m).take m := by
  unfold fallback_search fallbackAcceptSpec
  congr 1
  rw [show fallbackScoreNeighbor st r = fun p =>
      if (decide (¬ p.1 = -1) && decide (p.2 ≤ (6:ℚ)/5) &&
          decide (r ≤ max 0 (1 - p.2 / (6/5)))) = true
      then some (fallbackCandidate st p) else none from funext (fallbackScoreNeighbor_eq st r)]
  simpa using filterMap_guard_eq_map_filter
    (fun p => decide (¬ p.1 = -1) && decide (p.2 ≤ (6:ℚ)/5) &&
      decide (r ≤ max 0 (1 - p.2 / (6/5))))
    (fallbackCandidate st) (st.search q (m * 2))

lemma scoreNeighbor_some_priority (q : String) (ms : ℚ) (mapping : Int → Tool)
    (i : Int) (d : ℚ) (c : Candidate)
    (h : scoreNeighbor q ms mapping i d = some c) : c.llm_priority = none := by
  unfold scoreNeighbor at h
  split at h
  · exact absurd h (by simp)
  · dsimp only at h
    split at h
    · exact absurd h (by simp)
    · cases h
      rfl

lemma primary_priority_none (st : ToolIndexState) (q : String) (ms : ℚ) (c : Candidate)
    (h : c ∈ primaryCandidates st q ms) : c.llm_priority = none := by
  unfold primaryCandidates at h
  obtain ⟨p, _, hp⟩ := List.mem_filterMap.mp h
  exact scoreNeighbor_some_priority q ms st.tool_mapping p.1 p.2 c hp

lemma combinedDesc_trans : ∀ a b c : Candidate,
    combinedDesc a b = true → combinedDesc b c = true → combinedDesc a c = true := by
  intro a b c hab hbc
  simp only [combinedDesc, decide_eq_true_eq] at *
  exact le_trans hbc hab

lemma combinedDesc_total : ∀ a b : Candidate,
    (combinedDesc a b || combinedDesc b a) = true := by
  intro a b
  simp only [combinedDesc, Bool.or_eq_true, decide_eq_true_eq]
  exact le_total b.combined_score a.combined_score

/-- Stability of the phase-3 sort: within one combined-score tie
class, the sorted list is the original list. -/
lemma mergeSort_combined_filter_eq (l : List Candidate) (x : ℚ) :
    (l.mergeSort combinedDesc).filter (fun c => decide (c.combined_score = x)) =
      l.filter (fun c => decide (c.combined_score = x)) := by
  have hsub : (l.filter (fun c => decide (c.combined_score = x))).Sublist (l.mergeSort combinedDesc) := by
    apply List.sublist_mergeSort combinedDesc_trans combinedDesc_total
    · apply List.pairwise_of_forall_mem_list
      intro a ha b hb
      have ha' := List.of_mem_filter ha
      have hb' := List.of_mem_filter hb
      simp only [decide_eq_true_eq] at ha' hb'
      simp only [combinedDesc, decide_eq_true_eq, ha', hb']
      exact le_refl x
    · exact List.filter_sublist l
  have hsub2 : (l.filter (fun c => decide (c.combined_score = x))).Sublist
      ((l.mergeSort combinedDesc).filter (fun c => decide (c.combined_score = x))) := by
    have := List.Sublist.filter (fun c => decide (c.combined_score = x)) hsub
    rwa [List.filter_filter, List.filter_congr (by intro a _; rw [Bool.and_self])] at this
  have hperm : ((l.mergeSort combinedDesc).filter (fun c => decide (c.combined_score = x))).Perm
      (l.filter (fun c => decide (c.combined_score = x))) :=
    (List.mergeSort_perm l combinedDesc).filter _
  exact (List.Sublist.eq_of_length hsub2 hperm.length_eq.symm).symm

lemma fallback_mem_props (st : ToolIndexState) (q : String) (r : ℚ) (m : Nat)
    (c : Candidate) (hc : c ∈ fallback_search st q r m) :
    c.llm_priority = some "fallback" ∧ c.combined_score = c.semantic_score ∧
    c.semantic_score = max 0 (1 - c.distance / (6/5)) ∧ r ≤ c.semantic_score ∧
    c.distance ≤ 6/5 ∧ c.length_score = none ∧ c.description_factor = none ∧
    c.keyword_bonus = none := by
  unfold fallback_search at hc
  have hc' := List.mem_of_mem_take hc
  obtain ⟨p, _, hp⟩ := List.mem_filterMap.mp hc'
  rw [fallbackScoreNeighbor_eq] at hp
  by_cases hcond : (decide (¬ p.1 = -1) && decide (p.2 ≤ (6:ℚ)/5) &&
      decide (r ≤ max 0 (1 - p.2 / (6/5)))) = true
  · rw [if_pos hcond] at hp
    cases hp
    simp only [Bool.and_eq_true, decide_eq_true_eq] at hcond
    exact ⟨rfl, rfl, rfl, hcond.2, hcond.1.2, rfl, rfl, rfl⟩
  · rw [if_neg hcond] at hp
    exact absurd hp (by simp)

lemma llmPriority_ne_fallback (x : ℚ) : ¬ llmPriority x = "fallback" := by
  unfold llmPriority
  by_cases h1 : (4:ℚ)/5 ≤ x
  · rw [if_pos h1]
    decide
  · rw [if_neg h1]
    by_cases h2 : (3:ℚ)/5 ≤ x
    · rw [if_pos h2]
      decide
    · rw [if_neg h2]
      decide

/-- C4: fallback search is invoked exactly when no candidate survives
the primary filters, with relaxed threshold min_semantic_score times
0.5; fallback accepts exactly the non-sentinel neighbors with distance
at most 1.2 whose recomputed semantic score against the 1.2 threshold
meets the relaxed threshold (truncated to the hard max_candidates
limit); every fallback candidate is tagged tier fallback with combined
equal to its semantic score and no four-factor fields; and any rank
output is empty, all-fallback, or fallback-free (never a mix). -/
theorem fallback_exactly_when_no_survivor (st : ToolIndexState) (q : String)
    (m : Nat) (ms r : ℚ) :
    (primaryCandidates st q ms = [] →
      query_tools_optimized st q m ms = fallback_search st q (ms * (1/2)) m)
    ∧ (primaryCandidates st q ms ≠ [] →
      query_tools_optimized st q m ms =
        ((((primaryCandidates st q ms).mergeSort combinedDesc).take m).map
            (fun c => { c with llm_priority := some (llmPriority c.combined_score) })).filter
          (fun c => decide (ms ≤ c.semantic_score)))
    ∧ (fallback_search st q r m = (fallbackAcceptSpec st q r m).take m)
    ∧ (∀ c ∈ fallback_search st q r m,
        c.llm_priority = some "fallback" ∧ c.combined_score = c.semantic_score ∧
        c.semantic_score = max 0 (1 - c.distance / (6/5)) ∧ r ≤ c.semantic_score ∧
        c.distance ≤ 6/5 ∧ c.length_score = none ∧ c.description_factor = none ∧
        c.keyword_bonus = none)
    ∧ ((query_tools_optimized st q m ms = []) ∨
        (∀ c ∈ query_tools_optimized st q m ms, c.llm_priority = some "fallback") ∨
        (∀ c ∈ query_tools_optimized st q m ms, c.llm_priority ≠ some "fallback")) := by
  refine ⟨?_, ?_, fallback_search_eq_spec st q r m, fallback_mem_props st q r m, ?_⟩
  · intro h
    unfold query_tools_optimized
    rw [if_pos h]
  · intro h
    unfold query_tools_optimized
    rw [if_neg h]
  · by_cases hp : primaryCandidates st q ms = []
    · refine Or.inr (Or.inl ?_)
      intro c hc
      have : query_tools_optimized st q m ms = fallback_search st q (ms * (1/2)) m := by
        unfold query_tools_optimized
        rw [if_pos hp]
      rw [this] at hc
      exact (fallback_mem_props st q (ms * (1/2)) m c hc).1
    · refine Or.inr (Or.inr ?_)
      intro c hc
      have heq : query_tools_optimized st q m ms =
          ((((primaryCandidates st q ms).mergeSort combinedDesc).take m).map
              (fun c => { c with llm_priority := some (llmPriority c.combined_score) })).filter
            (fun c => decide (ms ≤ c.semantic_score)) := by
        unfold query_tools_optimized
        rw [if_neg hp]
      rw [heq] at hc
      have hc' := List.mem_of_mem_filter hc
      obtain ⟨c', _, hcc⟩ := List.mem_map.mp hc'
      intro hfb
      rw [← hcc] at hfb
      simp only [Option.some.injEq] at hfb
      exact llmPriority_ne_fallback c'.combined_score hfb

/-- A second concrete tool index state for witnesses: its only
neighbor is close enough to survive the primary path. -/
def stEx2 : ToolIndexState :=
  { tool_mapping := fun _ => toolEx
    nTools := 1
    search := fun _ _ => [((0:Int), (1:ℚ)/10)] }

lemma stEx_primary_empty : primaryCandidates stEx "a" (2/5) = [] := by
  have hs : stEx.search "a" (min 15 (2 * stEx.nTools)) = [((0:Int), (9:ℚ)/10)] := rfl
  unfold primaryCandidates
  rw [hs, List.filterMap_cons,
    scoreNeighbor_skip "a" (2/5) stEx.tool_mapping 0 (9/10)
      (Or.inr (by norm_num [conservative_threshold]))]
  rfl

theorem fallback_exactly_when_no_survivor_witness :
    query_tools_optimized stEx "a" 3 (2/5) = fallback_search stEx "a" ((2/5) * (1/2)) 3 :=
  (fallback_exactly_when_no_survivor stEx "a" 3 (2/5) ((2/5) * (1/2))).1 stEx_primary_empty

/-- Removing the llm_priority tag, to compare ranked output entries
with the untagged candidates in index-search order. -/
def stripPriority (c : Candidate) : Candidate := { c with llm_priority := none }

set_option maxHeartbeats 1600000 in
/-- C5: when the primary path produces candidates, the rank output
keeps only candidates whose semantic score meets min_semantic_score,
is sorted by combined score descending, is stable (within any
combined-score tie class the output order is a subsequence of the
index-search order), has length at most max_candidates, and carries
the tier mapping combined at least 0.8 to high_confidence, at least
0.6 to standard, else low_confidence. -/
theorem primary_output_contract (st : ToolIndexState) (q : String) (m : Nat) (ms : ℚ)
    (hne : primaryCandidates st q ms ≠ []) :
    (∀ c ∈ query_tools_optimized st q m ms, ms ≤ c.semantic_score)
    ∧ List.Sorted (fun a b : Candidate => b.combined_score ≤ a.combined_score)
        (query_tools_optimized st q m ms)
    ∧ (query_tools_optimized st q m ms).length ≤ m
    ∧ (∀ c ∈ query_tools_optimized st q m ms,
        c.llm_priority = some (if 4/5 ≤ c.combined_score then "high_confidence"
          else if 3/5 ≤ c.combined_score then "standard" else "low_confidence"))
    ∧ (∀ x : ℚ,
        (((query_tools_optimized st q m ms).map stripPriority).filter
            (fun c => decide (c.combined_score = x))).Sublist
          ((primaryCandidates st q ms).filter (fun c => decide (c.combined_score = x)))) := by
  have hout : query_tools_optimized st q m ms =
      ((((primaryCandidates st q ms).mergeSort combinedDesc).take m).map
          (fun c => { c with llm_priority := some (llmPriority c.combined_score) })).filter
        (fun c => decide (ms ≤ c.semantic_score)) := by
    unfold query_tools_optimized
    rw [if_neg hne]
  refine ⟨?_, ?_, ?_, ?_, ?_⟩
  · intro c hc
    rw [hout] at hc
    have := List.of_mem_filter hc
    simpa using this
  · rw [hout]
    have h1 : List.Pairwise (fun a b => combinedDesc a b = true)
        ((primaryCandidates st q ms).mergeSort combinedDesc) :=
      List.sorted_mergeSort combinedDesc_trans combinedDesc_total (primaryCandidates st q ms)
    have h2 : List.Pairwise (fun a b : Candidate => b.combined_score ≤ a.combined_score)
        ((primaryCandidates st q ms).mergeSort combinedDesc) :=
      h1.imp (fun h => by simpa [combinedDesc] using h)
    have h3 := h2.sublist (List.take_sublist m _)
    have h4 : List.Pairwise (fun a b : Candidate => b.combined_score ≤ a.combined_score)
        ((((primaryCandidates st q ms).mergeSort combinedDesc).take m).map
          (fun c => { c with llm_priority := some (llmPriority c.combined_score) })) :=
      List.pairwise_map.mpr (h3.imp (fun h => h))
    exact h4.sublist (List.filter_sublist _)
  · rw [hout]
    calc (((((primaryCandidates st q ms).mergeSort combinedDesc).take m).map
          (fun c => { c with llm_priority := some (llmPriority c.combined_score) })).filter
            (fun c => decide (ms ≤ c.semantic_score))).length
        ≤ ((((primaryCandidates st q ms).mergeSort combinedDesc).take m).map
          (fun c => { c with llm_priority := some (llmPriority c.combined_score) })).length :=
          List.length_filter_le _ _
      _ = (((primaryCandidates st q ms).mergeSort combinedDesc).take m).length :=
          List.length_map _ _
      _ ≤ m := by
          rw [List.length_take]
          exact min_le_left m _
  · intro c hc
    rw [hout] at hc
    have hc' := List.mem_of_mem_filter hc
    obtain ⟨c', _, hcc⟩ := List.mem_map.mp hc'
    rw [← hcc]
    rfl
  · intro x
    have hfe : List.filter
        ((fun c : Candidate => decide (ms ≤ c.semantic_score)) ∘
          (fun c : Candidate => { c with llm_priority := some (llmPriority c.combined_score) }))
        (((primaryCandidates st q ms).mergeSort combinedDesc).take m) =
        List.filter (fun c : Candidate => decide (ms ≤ c.semantic_score))
          (((primaryCandidates st q ms).mergeSort combinedDesc).take m) :=
      List.filter_congr (fun a _ => rfl)
    have hmap : (query_tools_optimized st q m ms).map stripPriority =
        (((primaryCandidates st q ms).mergeSort combinedDesc).take m).filter
          (fun c => decide (ms ≤ c.semantic_score)) := by
      rw [hout, List.filter_map, hfe, List.map_map]
      refine (List.map_congr_left ?_).trans (List.map_id _)
      intro a ha
      have ha' : a ∈ primaryCandidates st q ms :=
        ((List.mergeSort_perm (primaryCandidates st q ms) combinedDesc).mem_iff).mp
          (List.mem_of_mem_take (List.mem_of_mem_filter ha))
      have hpn : a.llm_priority = none := primary_priority_none st q ms a ha'
      simp only [Function.comp_apply, stripPriority]
      cases a
      simp_all
    rw [hmap]
    have hsub1 : ((((primaryCandidates st q ms).mergeSort combinedDesc).take m).filter
        (fun c => decide (ms ≤ c.semantic_score))).Sublist
          ((primaryCandidates st q ms).mergeSort combinedDesc) :=
      (List.filter_sublist _).trans (List.take_sublist m _)
    have hsub2 := List.Sublist.filter (fun c => decide (c.combined_score = x)) hsub1
    rw [mergeSort_combined_filter_eq] at hsub2
    exact (List.filter_filter _ _).symm ▸ hsub2

lemma stEx2_primary_ne : primaryCandidates stEx2 "a" (2/5) ≠ [] := by
  have hs : stEx2.search "a" (min 15 (2 * stEx2.nTools)) = [((0:Int), (1:ℚ)/10)] := rfl
  unfold primaryCandidates
  rw [hs, List.filterMap_cons,
    scoreNeighbor_keep "a" (2/5) stEx2.tool_mapping 0 (1/10) (by norm_num) (by norm_num)]
  rw [if_neg (by
    rw [max_eq_right (by norm_num : (0:ℚ) ≤ 1 - (1/10) / (4/5))]
    norm_num)]
  simp

theorem primary_output_contract_witness :
    (query_tools_optimized stEx2 "a" 3 (2/5)).length ≤ 3 :=
  (primary_output_contract stEx2 "a" 3 (2/5) stEx2_primary_ne).2.2.1

/-! ### FAISS persistence: checksum and validated load
(embeddings/faiss_persistence.py) -/

/-- Python str() of a natural number (standard decimal rendering),
modelled through Mathlib base-10 digits. -/
def natStr (n : Nat) : String :=
  if n = 0 then "0" else ((Nat.digits 10 n).reverse.map Nat.digitChar).asString

/-- The single-quote character used by Python repr of strings. -/
def sq : Char := Char.ofNat 39

/-- Python repr of a string inside a list display: the string wrapped
in single quotes (realistic inputs contain no quote, so no escaping
arises). -/
def quoteStr (s : String) : String :=
  String.mk (sq :: (s.data ++ [sq]))

/-- Python str.join: concatenate the pieces with the separator
between consecutive pieces. -/
def pyJoin (sep : String) : List String → String
  | [] => ""
  | [a] => a
  | a :: b :: rest => a ++ sep ++ pyJoin sep (b :: rest)

/-- Python str() applied to the query_examples field inside the
checksum f-string: a plain string is used verbatim, a list renders as
its bracketed comma-separated repr. -/
def pyFieldStr : QueryExamples → String
  | .str s => s
  | .list l => "[" ++ pyJoin ", " (l.map quoteStr) ++ "]"

/-- The per-tool projection hashed by calculate_tools_checksum:
id, name, description and query_examples joined by a pipe. -/
def toolRepr (t : Tool) : String :=
  natStr t.id ++ "|" ++ t.name ++ "|" ++ t.description ++ "|" ++ pyFieldStr t.query_examples

/-- A default tool, standing for the unreachable dictionary-miss case
of an access by one of the dictionary own keys. -/
def defaultTool : Tool :=
  { id := 0, name := "", description := "", python_function := "", query_examples := .str "" }

/-- Dictionary access tools_data[name]: the entry of the given name. -/
def findTool (tools_data : List Tool) (n : String) : Tool :=
  (tools_data.find? (fun t => t.name = n)).getD defaultTool

/-- The method calculate_tools_checksum of FaissPersistenceManager up
to the final SHA-256 application: the deterministic combined string
obtained by sorting the dictionary keys, projecting each tool to its
pipe-joined field representation, and joining with a pipe.  The
source hashes exactly this string with SHA-256, a fixed deterministic
function, so checksum equality in the source corresponds to equality
of this string (up to hash collisions, excluded for the realistic
inputs the claims quantify over). -/
def calculate_tools_checksum (tools_data : List Tool) : String :=
  pyJoin "|"
    (((tools_data.map Tool.name).mergeSort (fun a b => decide (a ≤ b))).map
      (fun n => toolRepr (findTool tools_data n)))

/-- The in-memory form of a loaded FAISS index relevant to
validation: its vector dimension and entry count. -/
structure FaissIndexData where
  d : Nat
  ntotal : Nat
deriving DecidableEq, Repr

/-- An on-disk artifact: its byte size as seen by os.path.getsize and
its parsed content, none standing for a read/parse that raises. -/
structure DiskFile (α : Type) where
  content : Option α
  size : Nat

/-- The metadata document written next to the tools index.  Every
field is an Option because the validation code reads it with
dict.get. -/
structure ToolsMetadata where
  embedding_model : Option String
  tools_count : Option Nat
  tools_checksum : Option String
  index_file_size : Option Nat
  mapping_file_size : Option Nat
  last_db_update : Option String
  vector_dimension : Option Nat

/-- The three persisted artifacts of the tools index; none models a
missing file. -/
structure ToolsPersistedState where
  index_file : Option (DiskFile FaissIndexData)
  metadata_file : Option (DiskFile ToolsMetadata)
  mapping_file : Option (DiskFile (List (Nat × Tool)))

/-- The method load_index_with_validation of FaissPersistenceManager:
require all three artifacts, parse the metadata, collect validation
issues (model name, tools count, checksum, recorded byte sizes, and
the database watermark when one is available), refuse on any issue,
then read index and mapping and refuse on a dimension mismatch; any
raising read yields the invalid result.  Returns the pair on success
and none as the explicit invalid signal. -/
def load_index_with_validation (ps : ToolsPersistedState) (tools_data : List Tool)
    (embedding_model : String) (current_db_update : Option String) :
    Option (FaissIndexData × List (Nat × Tool)) :=
  match ps.index_file, ps.metadata_file, ps.mapping_file with
  | some fi, some fm, some fmap =>
    match fm.content with
    | none => none
    | some meta =>
      if meta.embedding_model ≠ some embedding_model
          ∨ meta.tools_count ≠ some tools_data.length
          ∨ meta.tools_checksum ≠ some (calculate_tools_checksum tools_data)
          ∨ fi.size ≠ meta.index_file_size.getD 0
          ∨ fmap.size ≠ meta.mapping_file_size.getD 0
          ∨ (current_db_update.isSome ∧ meta.last_db_update ≠ current_db_update) then
        none
      else
        match fi.content with
        | none => none
        | some index =>
          match fmap.content with
          | none => none
          | some tool_mapping =>
            if index.d ≠ meta.vector_dimension.getD 384 then none
            else some (index, tool_mapping)
  | _, _, _ => none

/-- C2: load_index_with_validation returns the explicit invalid signal
(none) whenever any single check fails - a missing artifact, an
unparsable metadata file, a model name mismatch, an entry count
mismatch (including off by exactly one), a checksum mismatch, an
on-disk size differing from the recorded size (including one-byte
truncation), a raising index or mapping read, or a loaded dimension
differing from the metadata - it never returns a partial pair (any
success implies every validation held), and it returns the valid pair
whenever the snapshot, model name and artifacts all agree. -/
theorem load_index_with_validation_contract (ps : ToolsPersistedState)
    (tools_data : List Tool) (model : String) (dbu : Option String) :
    (ps.index_file = none →
      load_index_with_validation ps tools_data model dbu = none)
    ∧ (ps.metadata_file = none →
      load_index_with_validation ps tools_data model dbu = none)
    ∧ (ps.mapping_file = none →
      load_index_with_validation ps tools_data model dbu = none)
    ∧ (∀ fm, ps.metadata_file = some fm → fm.content = none →
      load_index_with_validation ps tools_data model dbu = none)
    ∧ (∀ fm meta, ps.metadata_file = some fm → fm.content = some meta →
      meta.embedding_model ≠ some model →
      load_index_with_validation ps tools_data model dbu = none)
    ∧ (∀ fm meta, ps.metadata_file = some fm → fm.content = some meta →
      meta.tools_count ≠ some tools_data.length →
      load_index_with_validation ps tools_data model dbu = none)
    ∧ (∀ fm meta, ps.metadata_file = some fm → fm.content = some meta →
      meta.tools_checksum ≠ some (calculate_tools_checksum tools_data) →
      load_index_with_validation ps tools_data model dbu = none)
    ∧ (∀ fi fm meta, ps.index_file = some fi → ps.metadata_file = some fm →
      fm.content = some meta → fi.size ≠ meta.index_file_size.getD 0 →
      load_index_with_validation ps tools_data model dbu = none)
    ∧ (∀ fmap fm meta, ps.mapping_file = some fmap → ps.metadata_file = some fm →
      fm.content = some meta → fmap.size ≠ meta.mapping_file_size.getD 0 →
      load_index_with_validation ps tools_data model dbu = none)
    ∧ (∀ fi, ps.index_file = some fi → fi.content = none →
      load_index_with_validation ps tools_data model dbu = none)
    ∧ (∀ fmap, ps.mapping_file = some fmap → fmap.content = none →
      load_index_with_validation ps tools_data model dbu = none)
    ∧ (∀ fi fm meta idx, ps.index_file = some fi → ps.metadata_file = some fm →
      fm.content = some meta → fi.content = some idx →
      idx.d ≠ meta.vector_dimension.getD 384 →
      load_index_with_validation ps tools_data model dbu = none)
    ∧ (∀ idx mp, load_index_with_validation ps tools_data model dbu = some (idx, mp) →
      ∃ fi fm fmap meta,
        ps.index_file = some fi ∧ ps.metadata_file = some fm ∧
        ps.mapping_file = some fmap ∧ fm.content = some meta ∧
        meta.embedding_model = some model ∧
        meta.tools_count = some tools_data.length ∧
        meta.tools_checksum = some (calculate_tools_checksum tools_data) ∧
        fi.size = meta.index_file_size.getD 0 ∧
        fmap.size = meta.mapping_file_size.getD 0 ∧
        (dbu.isSome → meta.last_db_update = dbu) ∧
        fi.content = some idx ∧ fmap.content = some mp ∧
        idx.d = meta.vector_dimension.getD 384)
    ∧ (∀ fi fm fmap meta idx mp,
        ps.index_file = some fi → ps.metadata_file = some fm →
        ps.mapping_file = some fmap → fm.content = some meta →
        meta.embedding_model = some model →
        meta.tools_count = some tools_data.length →
        meta.tools_checksum = some (calculate_tools_checksum tools_data) →
        fi.size = meta.index_file_size.getD 0 →
        fmap.size = meta.mapping_file_size.getD 0 →
        (dbu.isSome → meta.last_db_update = dbu) →
        fi.content = some idx → fmap.content = some mp →
        idx.d = meta.vector_dimension.getD 384 →
        load_index_with_validation ps tools_data model dbu = some (idx, mp)) := by
  obtain ⟨oif, omf, opf⟩ := ps
  refine ⟨?_, ?_, ?_, ?_, ?_, ?_, ?_, ?_, ?_, ?_, ?_, ?_, ?_, ?_⟩
  · intro h
    cases h
    cases omf <;> cases opf <;> rfl
  · intro h
    cases h
    cases oif <;> cases opf <;> rfl
  · intro h
    cases h
    cases oif <;> cases omf <;> rfl
  · intro fm hm hc
    cases hm
    cases oif with
    | none => rfl
    | some fi =>
      cases opf with
      | none => rfl
      | some fmap =>
        simp only [load_index_with_validation]
        rw [hc]
  · intro fm meta hm hc hne
    cases hm
    cases oif with
    | none => rfl
    | some fi =>
      cases opf with
      | none => rfl
      | some fmap =>
        simp only [load_index_with_validation]
        rw [hc]
        dsimp only
        rw [if_pos (Or.inl hne)]
  · intro fm meta hm hc hne
    cases hm
    cases oif with
    | none => rfl
    | some fi =>
      cases opf with
      | none => rfl
      | some fmap =>
        simp only [load_index_with_validation]
        rw [hc]
        dsimp only
        rw [if_pos (Or.inr (Or.inl hne))]
  · intro fm meta hm hc hne
    cases hm
    cases oif with
    | none => rfl
    | some fi =>
      cases opf with
      | none => rfl
      | some fmap =>
        simp only [load_index_with_validation]
        rw [hc]
        dsimp only
        rw [if_pos (Or.inr (Or.inr (Or.inl hne)))]
  · intro fi fm meta hi hm hc hne
    cases hi
    cases hm
    cases opf with
    | none => rfl
    | some fmap =>
      simp only [load_index_with_validation]
      rw [hc]
      dsimp only
      rw [if_pos (Or.inr (Or.inr (Or.inr (Or.inl hne))))]
  · intro fmap fm meta hp hm hc hne
    cases hp
    cases hm
    cases oif with
    | none => rfl
    | some fi =>
      simp only [load_index_with_validation]
      rw [hc]
      dsimp only
      rw [if_pos (Or.inr (Or.inr (Or.inr (Or.inr (Or.inl hne)))))]
  · intro fi hi hc
    cases hi
    cases omf with
    | none => rfl
    | some fm =>
      cases opf with
      | none => rfl
      | some fmap =>
        simp only [load_index_with_validation]
        cases hfmc : fm.content with
        | none => rfl
        | some meta =>
          dsimp only
          by_cases hcond : meta.embedding_model ≠ some model
              ∨ meta.tools_count ≠ some tools_data.length
              ∨ meta.tools_checksum ≠ some (calculate_tools_checksum tools_data)
              ∨ fi.size ≠ meta.index_file_size.getD 0
              ∨ fmap.size ≠ meta.mapping_file_size.getD 0
              ∨ (dbu.isSome ∧ meta.last_db_update ≠ dbu)
          · rw [if_pos hcond]
          · rw [if_neg hcond, hc]
  · intro fmap hp hc
    cases hp
    cases oif with
    | none => rfl
    | some fi =>
      cases omf with
      | none => rfl
      | some fm =>
        simp only [load_index_with_validation]
        cases hfmc : fm.content with
        | none => rfl
        | some meta =>
          dsimp only
          by_cases hcond : meta.embedding_model ≠ some model
              ∨ meta.tools_count ≠ some tools_data.length
              ∨ meta.tools_checksum ≠ some (calculate_tools_checksum tools_data)
              ∨ fi.size ≠ meta.index_file_size.getD 0
              ∨ fmap.size ≠ meta.mapping_file_size.getD 0
              ∨ (dbu.isSome ∧ meta.last_db_update ≠ dbu)
          · rw [if_pos hcond]
          · rw [if_neg hcond, hc]
            cases hfic : fi.content with
            | none => rfl
            | some idx => rfl
  · intro fi fm meta idx hi hm hc hic hne
    cases hi
    cases hm
    cases opf with
    | none => rfl
    | some fmap =>
      simp only [load_index_with_validation]
      rw [hc]
      dsimp only
      by_cases hcond : meta.embedding_model ≠ some model
          ∨ meta.tools_count ≠ some tools_data.length
          ∨ meta.tools_checksum ≠ some (calculate_tools_checksum tools_data)
          ∨ fi.size ≠ meta.index_file_size.getD 0
          ∨ fmap.size ≠ meta.mapping_file_size.getD 0
          ∨ (dbu.isSome ∧ meta.last_db_update ≠ dbu)
      · rw [if_pos hcond]
      · rw [if_neg hcond, hic]
        dsimp only
        cases hpc : fmap.content with
        | none => rfl
        | some mp =>
          dsimp only
          rw [if_pos hne]
  · intro idx mp h
    cases oif with
    | none => exact absurd h (by simp [load_index_with_validation])
    | some fi =>
      cases omf with
      | none => exact absurd h (by simp [load_index_with_validation])
      | some fm =>
        cases opf with
        | none => exact absurd h (by simp [load_index_with_validation])
        | some fmap =>
          simp only [load_index_with_validation] at h
          cases hfmc : fm.content with
          | none =>
            rw [hfmc] at h
            exact absurd h (by simp)
          | some meta =>
            rw [hfmc] at h
            dsimp only at h
            by_cases hcond : meta.embedding_model ≠ some model
                ∨ meta.tools_count ≠ some tools_data.length
                ∨ meta.tools_checksum ≠ some (calculate_tools_checksum tools_data)
                ∨ fi.size ≠ meta.index_file_size.getD 0
                ∨ fmap.size ≠ meta.mapping_file_size.getD 0
                ∨ (dbu.isSome ∧ meta.last_db_update ≠ dbu)
            · rw [if_pos hcond] at h
              exact absurd h (by simp)
            · rw [if_neg hcond] at h
              push_neg at hcond
              obtain ⟨h1, h2, h3, h4, h5, h6⟩ := hcond
              cases hfic : fi.content with
              | none =>
                rw [hfic] at h
                exact absurd h (by simp)
              | some idx2 =>
                rw [hfic] at h
                dsimp only at h
                cases hpc : fmap.content with
                | none =>
                  rw [hpc] at h
                  exact absurd h (by simp)
                | some mp2 =>
                  rw [hpc] at h
                  dsimp only at h
                  by_cases hd : idx2.d ≠ meta.vector_dimension.getD 384
                  · rw [if_pos hd] at h
                    exact absurd h (by simp)
                  · rw [if_neg hd] at h
                    rw [not_not] at hd
                    injection h with h
                    have ha : idx2 = idx := congrArg Prod.fst h
                    have hb : mp2 = mp := congrArg Prod.snd h
                    refine ⟨fi, fm, fmap, meta, rfl, rfl, rfl, hfmc, h1, h2, h3, h4, h5,
                      ?_, ?_, ?_, ?_⟩
                    · intro hs
                      exact h6 hs
                    · rw [hfic, ha]
                    · rw [hpc, hb]
                    · rw [← ha]
                      exact hd
  · intro fi fm fmap meta idx mp hi hm hp hc he hcount hck hs1 hs2 hlast hic hpc hd
    cases hi
    cases hm
    cases hp
    simp only [load_index_with_validation]
    rw [hc]
    dsimp only
    rw [if_neg (by
      push_neg
      exact ⟨he, hcount, hck, hs1, hs2, fun hdb => hlast hdb⟩)]
    rw [hic]
    dsimp only
    rw [hpc]
    dsimp only
    rw [if_neg (by rw [hd]; exact fun hx => hx rfl)]

/-- A concrete one-tool snapshot for the validation witnesses. -/
def toolsEx : List Tool := [toolEx]

/-- A concrete loaded index for the validation witnesses. -/
def idxEx : FaissIndexData := { d := 384, ntotal := 1 }

/-- Metadata agreeing with toolsEx, the model name, and the artifact
sizes used below. -/
def metaEx : ToolsMetadata :=
  { embedding_model := some "all-MiniLM-L6-v2"
    tools_count := some 1
    tools_checksum := some (calculate_tools_checksum toolsEx)
    index_file_size := some 100
    mapping_file_size := some 50
    last_db_update := some "2024-01-01T00:00:00"
    vector_dimension := some 384 }

/-- A fully consistent persisted state. -/
def psGood : ToolsPersistedState :=
  { index_file := some { content := some idxEx, size := 100 },
    metadata_file := some { content := some metaEx, size := 10 },
    mapping_file := some { content := some [(0, toolEx)], size := 50 } }

/-- Metadata as in metaEx but with the entry count off by exactly one. -/
def metaCountOff : ToolsMetadata :=
  { embedding_model := some "all-MiniLM-L6-v2",
    tools_count := some 2,
    tools_checksum := some (calculate_tools_checksum toolsEx),
    index_file_size := some 100,
    mapping_file_size := some 50,
    last_db_update := some "2024-01-01T00:00:00",
    vector_dimension := some 384 }

/-- The consistent state with the count-off metadata. -/
def psCountOff : ToolsPersistedState :=
  { index_file := some { content := some idxEx, size := 100 },
    metadata_file := some { content := some metaCountOff, size := 10 },
    mapping_file := some { content := some [(0, toolEx)], size := 50 } }

/-- The consistent state with the index artifact truncated by one byte. -/
def psTruncated : ToolsPersistedState :=
  { index_file := some { content := some idxEx, size := 99 },
    metadata_file := some { content := some metaEx, size := 10 },
    mapping_file := some { content := some [(0, toolEx)], size := 50 } }

theorem load_index_with_validation_contract_witness :
    load_index_with_validation psGood toolsEx "all-MiniLM-L6-v2"
        (some "2024-01-01T00:00:00") = some (idxEx, [(0, toolEx)])
    ∧ load_index_with_validation psCountOff toolsEx "all-MiniLM-L6-v2"
        (some "2024-01-01T00:00:00") = none
    ∧ load_index_with_validation psTruncated toolsEx "all-MiniLM-L6-v2"
        (some "2024-01-01T00:00:00") = none := by
  refine ⟨?_, ?_, ?_⟩
  · exact (load_index_with_validation_contract psGood toolsEx "all-MiniLM-L6-v2"
      (some "2024-01-01T00:00:00")).2.2.2.2.2.2.2.2.2.2.2.2.2
      { content := some idxEx, size := 100 } { content := some metaEx, size := 10 }
      { content := some [(0, toolEx)], size := 50 } metaEx idxEx [(0, toolEx)]
      rfl rfl rfl rfl rfl rfl rfl rfl rfl (fun _ => rfl) rfl rfl rfl
  · exact (load_index_with_validation_contract psCountOff toolsEx "all-MiniLM-L6-v2"
      (some "2024-01-01T00:00:00")).2.2.2.2.2.1
      { content := some metaCountOff, size := 10 } metaCountOff rfl rfl (by decide)
  · exact (load_index_with_validation_contract psTruncated toolsEx "all-MiniLM-L6-v2"
      (some "2024-01-01T00:00:00")).2.2.2.2.2.2.2.1
      { content := some idxEx, size := 99 }
      { content := some metaEx, size := 10 } metaEx rfl rfl rfl (by decide)

/-! ### Checksum stability and sensitivity (claim C3) -/

lemma string_data_inj {s t : String} (h : s.data = t.data) : s = t := by
  cases s
  cases t
  exact congrArg String.mk h

/-- Pipe-separated join at the character-list level; mirrors pyJoin
with separator the pipe. -/
def joinSep : List (List Char) → List Char
  | [] => []
  | [a] => a
  | a :: b :: rest => a ++ '|' :: joinSep (b :: rest)

lemma pyJoin_pipe_data : ∀ l : List String, (pyJoin "|" l).data = joinSep (l.map String.data)
  | [] => rfl
  | [a] => rfl
  | a :: b :: rest => by
    show (a ++ "|" ++ pyJoin "|" (b :: rest)).data = _
    rw [String.data_append, String.data_append, pyJoin_pipe_data (b :: rest)]
    simp [joinSep]

lemma append_sep_inj (c : Char) : ∀ (a b x y : List Char), c ∉ a → c ∉ b →
    a ++ c :: x = b ++ c :: y → a = b ∧ x = y := by
  intro a
  induction a with
  | nil =>
    intro b x y _ hb h
    cases b with
    | nil => simpa using h
    | cons e b' =>
      simp only [List.mem_cons, not_or] at hb
      simp only [List.nil_append, List.cons_append, List.cons.injEq] at h
      exact absurd h.1 hb.1
  | cons e a' ih =>
    intro b x y ha hb h
    cases b with
    | nil =>
      simp only [List.mem_cons, not_or] at ha
      simp only [List.cons_append, List.nil_append, List.cons.injEq] at h
      exact absurd h.1.symm ha.1
    | cons f b' =>
      simp only [List.mem_cons, not_or] at ha hb
      simp only [List.cons_append, List.cons.injEq] at h
      obtain ⟨hef, hrest⟩ := h
      obtain ⟨ha', hx⟩ := ih b' x y ha.2 hb.2 hrest
      exact ⟨by rw [hef, ha'], hx⟩

lemma joinSep_count (l : List (List Char)) (h : ∀ a ∈ l, ('|':Char) ∉ a) :
    (joinSep l).count '|' = l.length - 1 := by
  induction l with
  | nil => rfl
  | cons a r ih =>
    cases r with
    | nil =>
      simp only [joinSep, List.length_singleton]
      rw [List.count_eq_zero.mpr (h a (by simp))]
    | cons b r' =>
      have hcnt : (joinSep (a :: b :: r')).count '|' =
          (joinSep (b :: r')).count '|' + 1 := by
        show ((a ++ '|' :: joinSep (b :: r')).count '|') = _
        rw [List.count_append, List.count_eq_zero.mpr (h a (by simp)),
          List.count_cons_self]
        omega
      rw [hcnt, ih (fun x hx => h x (by simp [hx]))]
      simp only [List.length_cons]
      omega

lemma joinSep_ne_nil_of_two (a b : List Char) (r : List (List Char)) :
    joinSep (a :: b :: r) ≠ [] := by
  show a ++ '|' :: joinSep (b :: r) ≠ []
  intro h
  have := congrArg List.length h
  simp at this

lemma joinSep_inj : ∀ (l1 l2 : List (List Char)), l1.length = l2.length →
    (∀ a ∈ l1, ('|':Char) ∉ a) → (∀ a ∈ l2, ('|':Char) ∉ a) →
    joinSep l1 = joinSep l2 → l1 = l2 := by
  intro l1
  induction l1 with
  | nil =>
    intro l2 hlen _ _ _
    cases l2 with
    | nil => rfl
    | cons b r => simp at hlen
  | cons a r1 ih =>
    intro l2 hlen h1 h2 h
    cases l2 with
    | nil => simp at hlen
    | cons b r2 =>
      cases r1 with
      | nil =>
        cases r2 with
        | nil => rw [show a = b from h]
        | cons b2 r2' => simp at hlen
      | cons a2 r1' =>
        cases r2 with
        | nil => simp at hlen
        | cons b2 r2' =>
          have h' : a ++ '|' :: joinSep (a2 :: r1') = b ++ '|' :: joinSep (b2 :: r2') := h
          obtain ⟨hab, ht⟩ := append_sep_inj '|' a b _ _ (h1 a (by simp)) (h2 b (by simp)) h'
          have hr := ih (b2 :: r2') (by simpa using hlen)
            (fun x hx => h1 x (by simp [hx])) (fun x hx => h2 x (by simp [hx])) ht
          rw [hab, hr]

lemma digitChar_inj_lt : ∀ a < 10, ∀ b < 10, Nat.digitChar a = Nat.digitChar b → a = b := by
  decide

lemma digitChar_ne_pipe : ∀ a < 10, Nat.digitChar a ≠ '|' := by
  decide

lemma map_digitChar_inj : ∀ (l1 l2 : List Nat), (∀ x ∈ l1, x < 10) → (∀ x ∈ l2, x < 10) →
    l1.map Nat.digitChar = l2.map Nat.digitChar → l1 = l2 := by
  intro l1
  induction l1 with
  | nil =>
    intro l2 _ _ h
    cases l2 with
    | nil => rfl
    | cons b r => simp at h
  | cons a r1 ih =>
    intro l2 h1 h2 h
    cases l2 with
    | nil => simp at h
    | cons b r2 =>
      simp only [List.map_cons, List.cons.injEq] at h
      have hab : a = b :=
        digitChar_inj_lt a (h1 a (by simp)) b (h2 b (by simp)) h.1
      have hr : r1 = r2 := ih r2 (fun x hx => h1 x (by simp [hx]))
        (fun x hx => h2 x (by simp [hx])) h.2
      rw [hab, hr]

lemma natStr_inj : ∀ (m n : Nat), natStr m = natStr n → m = n := by
  have key : ∀ n : Nat, n ≠ 0 → natStr n ≠ "0" := by
    intro n hn hcontra
    unfold natStr at hcontra
    rw [if_neg hn] at hcontra
    have hdata := congrArg String.data hcontra
    have hlen := congrArg List.length hdata
    simp only [List.asString] at hdata hlen
    have hlen1 : (Nat.digits 10 n).length = 1 := by
      simpa using hlen
    obtain ⟨d, hd⟩ := List.length_eq_one.mp hlen1
    rw [hd] at hdata
    simp only [List.reverse_singleton, List.map_singleton] at hdata
    have hd10 : d < 10 := Nat.digits_lt_base (by norm_num) (by rw [hd]; simp)
    have hchar : Nat.digitChar d = '0' := by
      have : [Nat.digitChar d] = ['0'] := by
        exact hdata.trans rfl
      simpa using this
    have hd0 : d = 0 := digitChar_inj_lt d hd10 0 (by norm_num) (by simpa using hchar)
    apply hn
    have h1 := (Nat.ofDigits_digits 10 n).symm
    rw [hd, hd0] at h1
    simpa [Nat.ofDigits] using h1
  intro m n h
  by_cases hm : m = 0 <;> by_cases hn : n = 0
  · rw [hm, hn]
  · exfalso
    apply key n hn
    rw [← h, natStr, if_pos hm]
  · exfalso
    apply key m hm
    rw [h, natStr, if_pos hn]
  · unfold natStr at h
    rw [if_neg hm, if_neg hn] at h
    have hdata := congrArg String.data h
    simp only [List.asString] at hdata
    have hrev : (Nat.digits 10 m).reverse = (Nat.digits 10 n).reverse :=
      map_digitChar_inj _ _
        (fun x hx => Nat.digits_lt_base (by norm_num) (List.mem_reverse.mp hx))
        (fun x hx => Nat.digits_lt_base (by norm_num) (List.mem_reverse.mp hx)) hdata
    have hdig : Nat.digits 10 m = Nat.digits 10 n := by
      have := congrArg List.reverse hrev
      simpa using this
    have := congrArg (Nat.ofDigits 10) hdig
    rwa [Nat.ofDigits_digits, Nat.ofDigits_digits] at this

lemma natStr_pipe_free (n : Nat) : ('|':Char) ∉ (natStr n).data := by
  unfold natStr
  by_cases hn : n = 0
  · rw [if_pos hn]
    decide
  · rw [if_neg hn]
    intro hmem
    simp only [List.asString] at hmem
    obtain ⟨d, hd, hdc⟩ := List.mem_map.mp hmem
    exact digitChar_ne_pipe d
      (Nat.digits_lt_base (by norm_num) (List.mem_reverse.mp hd)) hdc

/-- The fields calculate_tools_checksum depends on: everything in the
tool row except python_function. -/
def checksumFields (t : Tool) : Nat × String × String × QueryExamples :=
  (t.id, t.name, t.description, t.query_examples)

/-- Realistic query-example values for checksum sensitivity: list
examples contain neither the pipe separator nor a quote, and a plain
string value contains no pipe and does not imitate a list repr. -/
def RealisticQE : QueryExamples → Prop
  | .str s => ('|':Char) ∉ s.data ∧ s.data.head? ≠ some '['
  | .list l => ∀ e ∈ l, ('|':Char) ∉ e.data ∧ sq ∉ e.data

/-- Realistic tool rows: no pipe in the name or description, and
realistic query examples. -/
def RealisticTool (t : Tool) : Prop :=
  ('|':Char) ∉ t.name.data ∧ ('|':Char) ∉ t.description.data ∧
    RealisticQE t.query_examples

/-- Realistic tool datasets: all rows realistic. -/
def RealisticTools (ts : List Tool) : Prop := ∀ t ∈ ts, RealisticTool t

lemma quoteStr_data (e : String) : (quoteStr e).data = sq :: (e.data ++ [sq]) := rfl

lemma sq_ne_pipe : sq ≠ '|' := by decide

lemma comma_ne_pipe : (',':Char) ≠ '|' := by decide

lemma space_ne_pipe : (' ':Char) ≠ '|' := by decide

lemma quoteJoin_pipe_free : ∀ (l : List String), (∀ e ∈ l, ('|':Char) ∉ e.data) →
    ('|':Char) ∉ (pyJoin ", " (l.map quoteStr)).data := by
  intro l
  induction l with
  | nil =>
    intro _ hmem
    simp [pyJoin] at hmem
  | cons a r ih =>
    intro h hmem
    cases r with
    | nil =>
      simp only [List.map_singleton] at hmem
      rw [show pyJoin ", " [quoteStr a] = quoteStr a from rfl, quoteStr_data] at hmem
      simp only [List.mem_cons, List.mem_append, List.mem_singleton] at hmem
      rcases hmem with h1 | h2 | h3
      · exact sq_ne_pipe h1.symm
      · exact h a (by simp) h2
      · have h3' : ('|':Char) = sq := by simpa using h3
        exact sq_ne_pipe h3'.symm
    | cons b r' =>
      rw [show pyJoin ", " ((a :: b :: r').map quoteStr) =
        quoteStr a ++ ", " ++ pyJoin ", " ((b :: r').map quoteStr) from rfl] at hmem
      rw [String.data_append, String.data_append, quoteStr_data] at hmem
      simp only [List.mem_append, List.mem_cons, List.mem_singleton] at hmem
      rcases hmem with ((h1 | h2 | h3) | h4) | h5
      · exact sq_ne_pipe h1.symm
      · exact h a (by simp) h2
      · have h3' : ('|':Char) = sq := by simpa using h3
        exact sq_ne_pipe h3'.symm
      · rcases h4 with h4 | h4 | h4
        · exact comma_ne_pipe h4.symm
        · exact space_ne_pipe h4.symm
        · simp at h4
      · exact ih (fun e he => h e (by simp [he])) h5

lemma pyFieldStr_pipe_free (q : QueryExamples) (h : RealisticQE q) :
    ('|':Char) ∉ (pyFieldStr q).data := by
  cases q with
  | str s => exact h.1
  | list l =>
    show ('|':Char) ∉ ("[" ++ pyJoin ", " (l.map quoteStr) ++ "]").data
    rw [String.data_append, String.data_append]
    intro hmem
    simp only [List.mem_append] at hmem
    rcases hmem with (h1 | h2) | h3
    · simp at h1
    · exact quoteJoin_pipe_free l (fun e he => (h e he).1) h2
    · simp at h3

lemma quoteJoin_inj : ∀ (l1 l2 : List String), (∀ e ∈ l1, sq ∉ e.data) →
    (∀ e ∈ l2, sq ∉ e.data) →
    (pyJoin ", " (l1.map quoteStr)).data = (pyJoin ", " (l2.map quoteStr)).data →
    l1 = l2 := by
  intro l1
  induction l1 with
  | nil =>
    intro l2 _ _ h
    cases l2 with
    | nil => rfl
    | cons b r =>
      rw [show pyJoin ", " (([] : List String).map quoteStr) = "" from rfl] at h
      cases r with
      | nil =>
        rw [show pyJoin ", " ([b].map quoteStr) = quoteStr b from rfl, quoteStr_data] at h
        simp at h
      | cons b2 r2 =>
        rw [show pyJoin ", " ((b :: b2 :: r2).map quoteStr) =
          quoteStr b ++ ", " ++ pyJoin ", " ((b2 :: r2).map quoteStr) from rfl,
          String.data_append, String.data_append, quoteStr_data] at h
        simp at h
  | cons a r1 ih =>
    intro l2 h1 h2 h
    cases l2 with
    | nil =>
      cases r1 with
      | nil =>
        rw [show pyJoin ", " ([a].map quoteStr) = quoteStr a from rfl, quoteStr_data] at h
        simp [pyJoin] at h
      | cons a2 r1' =>
        rw [show pyJoin ", " ((a :: a2 :: r1').map quoteStr) =
          quoteStr a ++ ", " ++ pyJoin ", " ((a2 :: r1').map quoteStr) from rfl,
          String.data_append, String.data_append, quoteStr_data] at h
        simp [pyJoin] at h
    | cons b r2 =>
      cases r1 with
      | nil =>
        cases r2 with
        | nil =>
          rw [show pyJoin ", " ([a].map quoteStr) = quoteStr a from rfl,
            show pyJoin ", " ([b].map quoteStr) = quoteStr b from rfl,
            quoteStr_data, quoteStr_data] at h
          simp only [List.cons.injEq] at h
          obtain ⟨hab, -⟩ := append_sep_inj sq a.data b.data [] []
            (h1 a (by simp)) (h2 b (by simp)) h.2
          rw [string_data_inj hab]
        | cons b2 r2' =>
          rw [show pyJoin ", " ([a].map quoteStr) = quoteStr a from rfl,
            show pyJoin ", " ((b :: b2 :: r2').map quoteStr) =
              quoteStr b ++ ", " ++ pyJoin ", " ((b2 :: r2').map quoteStr) from rfl,
            String.data_append, String.data_append, quoteStr_data, quoteStr_data] at h
          simp only [List.cons_append, List.cons.injEq, List.append_assoc] at h
          obtain ⟨-, htail⟩ := h
          obtain ⟨-, habs⟩ := append_sep_inj sq a.data b.data _ _
            (h1 a (by simp)) (h2 b (by simp)) (by simpa using htail)
          simp at habs
      | cons a2 r1' =>
        cases r2 with
        | nil =>
          rw [show pyJoin ", " ((a :: a2 :: r1').map quoteStr) =
              quoteStr a ++ ", " ++ pyJoin ", " ((a2 :: r1').map quoteStr) from rfl,
            show pyJoin ", " ([b].map quoteStr) = quoteStr b from rfl,
            String.data_append, String.data_append, quoteStr_data, quoteStr_data] at h
          simp only [List.cons_append, List.cons.injEq, List.append_assoc] at h
          obtain ⟨-, htail⟩ := h
          obtain ⟨-, habs⟩ := append_sep_inj sq a.data b.data _ _
            (h1 a (by simp)) (h2 b (by simp)) (by simpa using htail)
          simp at habs
        | cons b2 r2' =>
          rw [show pyJoin ", " ((a :: a2 :: r1').map quoteStr) =
              quoteStr a ++ ", " ++ pyJoin ", " ((a2 :: r1').map quoteStr) from rfl,
            show pyJoin ", " ((b :: b2 :: r2').map quoteStr) =
              quoteStr b ++ ", " ++ pyJoin ", " ((b2 :: r2').map quoteStr) from rfl,
            String.data_append, String.data_append, String.data_append,
            String.data_append, quoteStr_data, quoteStr_data] at h
          simp only [List.cons_append, List.cons.injEq, List.append_assoc] at h
          obtain ⟨-, htail⟩ := h
          obtain ⟨hab, hrest⟩ := append_sep_inj sq a.data b.data _ _
            (h1 a (by simp)) (h2 b (by simp)) (by simpa using htail)
          simp only [List.cons.injEq] at hrest
          have hr := ih (b2 :: r2') (fun e he => h1 e (by simp [he]))
            (fun e he => h2 e (by simp [he])) hrest.2.2
          rw [string_data_inj hab, hr]

lemma pyFieldStr_inj (q1 q2 : QueryExamples) (h1 : RealisticQE q1) (h2 : RealisticQE q2)
    (h : pyFieldStr q1 = pyFieldStr q2) : q1 = q2 := by
  cases q1 with
  | str s1 =>
    cases q2 with
    | str s2 => rw [show s1 = s2 from h]
    | list l2 =>
      exfalso
      have hdata := congrArg String.data h
      rw [show pyFieldStr (.str s1) = s1 from rfl,
        show pyFieldStr (.list l2) = "[" ++ pyJoin ", " (l2.map quoteStr) ++ "]" from rfl,
        String.data_append, String.data_append] at hdata
      apply h1.2
      rw [hdata]
      rfl
  | list l1 =>
    cases q2 with
    | str s2 =>
      exfalso
      have hdata := congrArg String.data h
      rw [show pyFieldStr (.str s2) = s2 from rfl,
        show pyFieldStr (.list l1) = "[" ++ pyJoin ", " (l1.map quoteStr) ++ "]" from rfl,
        String.data_append, String.data_append] at hdata
      apply h2.2
      rw [← hdata]
      rfl
    | list l2 =>
      have hdata := congrArg String.data h
      rw [show pyFieldStr (.list l1) = "[" ++ pyJoin ", " (l1.map quoteStr) ++ "]" from rfl,
        show pyFieldStr (.list l2) = "[" ++ pyJoin ", " (l2.map quoteStr) ++ "]" from rfl,
        String.data_append, String.data_append, String.data_append, String.data_append]
        at hdata
      simp only [List.cons_append, List.nil_append, List.cons.injEq,
        List.append_assoc] at hdata
      have hbody := List.append_inj' hdata.2 (by rfl)
      have hl := quoteJoin_inj l1 l2 (fun e he => (h1 e he).2)
        (fun e he => (h2 e he).2) hbody.1
      rw [hl]

/-- The four character-level fields a tool contributes to the combined
checksum string. -/
def toolFields (t : Tool) : List (List Char) :=
  [(natStr t.id).data, t.name.data, t.description.data, (pyFieldStr t.query_examples).data]

lemma toolRepr_data (t : Tool) : (toolRepr t).data = joinSep (toolFields t) := by
  show (natStr t.id ++ "|" ++ t.name ++ "|" ++ t.description ++ "|"
      ++ pyFieldStr t.query_examples).data = _
  rw [String.data_append, String.data_append, String.data_append, String.data_append,
    String.data_append]
  show _ = (natStr t.id).data ++ '|' :: (t.name.data ++ '|' :: (t.description.data
      ++ '|' :: (pyFieldStr t.query_examples).data))
  simp

lemma joinSep_append (l1 l2 : List (List Char)) (h1 : l1 ≠ []) (h2 : l2 ≠ []) :
    joinSep (l1 ++ l2) = joinSep l1 ++ '|' :: joinSep l2 := by
  induction l1 with
  | nil => exact absurd rfl h1
  | cons a r ih =>
    cases r with
    | nil =>
      cases l2 with
      | nil => exact absurd rfl h2
      | cons b r2 => rfl
    | cons a2 r' =>
      show a ++ '|' :: joinSep ((a2 :: r') ++ l2) = (a ++ '|' :: joinSep (a2 :: r'))
        ++ '|' :: joinSep l2
      rw [ih (by simp)]
      simp

/-- The concatenated field lists of the tools selected by a name
list, in order. -/
def fieldsOfNames (t : List Tool) : List String → List (List Char)
  | [] => []
  | n :: rest => toolFields (findTool t n) ++ fieldsOfNames t rest

lemma fieldsOfNames_ne_nil (t : List Tool) (n : String) (rest : List String) :
    fieldsOfNames t (n :: rest) ≠ [] := by
  show toolFields (findTool t n) ++ fieldsOfNames t rest ≠ []
  simp [toolFields]

lemma fieldsOfNames_length (t : List Tool) : ∀ names : List String,
    (fieldsOfNames t names).length = 4 * names.length
  | [] => rfl
  | n :: rest => by
    show (toolFields (findTool t n) ++ fieldsOfNames t rest).length = _
    rw [List.length_append, fieldsOfNames_length t rest]
    simp [toolFields]
    ring

/-- The sorted key list of the tools dictionary. -/
def sortedNames (t : List Tool) : List String :=
  (t.map Tool.name).mergeSort (fun a b => decide (a ≤ b))

lemma checksum_data_aux (t : List Tool) : ∀ names : List String,
    (pyJoin "|" (names.map (fun n => toolRepr (findTool t n)))).data =
      joinSep (fieldsOfNames t names)
  | [] => rfl
  | [n] => by
    show (toolRepr (findTool t n)).data = _
    rw [toolRepr_data]
    show _ = joinSep (toolFields (findTool t n) ++ [])
    rw [List.append_nil]
  | n :: m :: rest => by
    show (toolRepr (findTool t n) ++ "|"
        ++ pyJoin "|" ((m :: rest).map (fun x => toolRepr (findTool t x)))).data = _
    rw [String.data_append, String.data_append, checksum_data_aux t (m :: rest)]
    show (toolRepr (findTool t n)).data ++ ['|'] ++ joinSep (fieldsOfNames t (m :: rest)) = _
    rw [toolRepr_data,
      show fieldsOfNames t (n :: m :: rest) =
        toolFields (findTool t n) ++ fieldsOfNames t (m :: rest) from rfl,
      joinSep_append _ _ (by simp [toolFields]) (fieldsOfNames_ne_nil t m rest)]
    simp

lemma checksum_data (t : List Tool) :
    (calculate_tools_checksum t).data = joinSep (fieldsOfNames t (sortedNames t)) := by
  unfold calculate_tools_checksum
  exact checksum_data_aux t (sortedNames t)

lemma strLe_trans : ∀ a b c : String, decide (a ≤ b) = true → decide (b ≤ c) = true →
    decide (a ≤ c) = true := by
  intro a b c hab hbc
  simp only [decide_eq_true_eq] at *
  exact le_trans hab hbc

lemma strLe_total : ∀ a b : String, (decide (a ≤ b) || decide (b ≤ a)) = true := by
  intro a b
  simp only [Bool.or_eq_true, decide_eq_true_eq]
  exact le_total a b

lemma sortedNames_sorted (t : List Tool) : List.Sorted (· ≤ ·) (sortedNames t) :=
  (List.sorted_mergeSort strLe_trans strLe_total (t.map Tool.name)).imp
    (fun h => by simpa using h)

lemma sortedNames_perm (t : List Tool) : (sortedNames t).Perm (t.map Tool.name) :=
  List.mergeSort_perm (t.map Tool.name) _

lemma mem_sortedNames (t : List Tool) (n : String) :
    n ∈ sortedNames t ↔ n ∈ t.map Tool.name :=
  (sortedNames_perm t).mem_iff

lemma find?_name_isSome (t : List Tool) (n : String) :
    (t.find? (fun x => x.name = n)).isSome ↔ n ∈ t.map Tool.name := by
  rw [List.find?_isSome]
  constructor
  · rintro ⟨x, hx, hn⟩
    simp only [decide_eq_true_eq] at hn
    exact List.mem_map.mpr ⟨x, hx, hn⟩
  · intro hmem
    obtain ⟨x, hx, hn⟩ := List.mem_map.mp hmem
    exact ⟨x, hx, by simpa using hn⟩

lemma find?_eq_some_findTool (t : List Tool) (n : String) (h : n ∈ t.map Tool.name) :
    t.find? (fun x => x.name = n) = some (findTool t n) := by
  obtain ⟨e, he⟩ := Option.isSome_iff_exists.mp ((find?_name_isSome t n).mpr h)
  rw [he]
  unfold findTool
  rw [he]
  rfl

lemma findTool_mem (t : List Tool) (n : String) (h : n ∈ t.map Tool.name) :
    findTool t n ∈ t :=
  List.mem_of_find?_eq_some (find?_eq_some_findTool t n h)

lemma findTool_name (t : List Tool) (n : String) (h : n ∈ t.map Tool.name) :
    (findTool t n).name = n := by
  have := List.find?_some (find?_eq_some_findTool t n h)
  simpa using this

lemma toolRepr_congr (a b : Tool) (h : checksumFields a = checksumFields b) :
    toolRepr a = toolRepr b := by
  unfold checksumFields at h
  simp only [Prod.mk.injEq] at h
  obtain ⟨h1, h2, h3, h4⟩ := h
  unfold toolRepr
  rw [h1, h2, h3, h4]

lemma checksum_eq_of_lookup_eq (t1 t2 : List Tool)
    (hnd1 : (t1.map Tool.name).Nodup) (hnd2 : (t2.map Tool.name).Nodup)
    (hf : ∀ n : String, (t1.find? (fun x => x.name = n)).map checksumFields =
      (t2.find? (fun x => x.name = n)).map checksumFields) :
    calculate_tools_checksum t1 = calculate_tools_checksum t2 := by
  have hmem : ∀ n : String, n ∈ t1.map Tool.name ↔ n ∈ t2.map Tool.name := by
    intro n
    rw [← find?_name_isSome, ← find?_name_isSome]
    have h := congrArg Option.isSome (hf n)
    simp only [Option.isSome_map'] at h
    rw [h]
  have hperm : (t1.map Tool.name).Perm (t2.map Tool.name) :=
    (List.perm_ext_iff_of_nodup hnd1 hnd2).mpr hmem
  have hsn : sortedNames t1 = sortedNames t2 :=
    List.eq_of_perm_of_sorted
      ((sortedNames_perm t1).trans (hperm.trans (sortedNames_perm t2).symm))
      (sortedNames_sorted t1) (sortedNames_sorted t2)
  unfold calculate_tools_checksum
  rw [show (t1.map Tool.name).mergeSort (fun a b => decide (a ≤ b)) = sortedNames t1 from rfl,
    show (t2.map Tool.name).mergeSort (fun a b => decide (a ≤ b)) = sortedNames t2 from rfl,
    ← hsn]
  congr 1
  apply List.map_congr_left
  intro n hn
  have hn1 : n ∈ t1.map Tool.name := (mem_sortedNames t1 n).mp hn
  have hn2 : n ∈ t2.map Tool.name := (hmem n).mp hn1
  have h1 := find?_eq_some_findTool t1 n hn1
  have h2 := find?_eq_some_findTool t2 n hn2
  have := hf n
  rw [h1, h2] at this
  simp only [Option.map_some', Option.some.injEq] at this
  exact toolRepr_congr _ _ this

lemma toolFields_length (e : Tool) : (toolFields e).length = 4 := rfl

lemma fieldsOfNames_cons_form (t : List Tool) (n : String) (rest : List String) :
    fieldsOfNames t (n :: rest) =
      (natStr (findTool t n).id).data :: (findTool t n).name.data ::
        (findTool t n).description.data ::
          (pyFieldStr (findTool t n).query_examples).data :: fieldsOfNames t rest := rfl

lemma fieldsOfNames_pipe_free (t : List Tool) (hreal : RealisticTools t) :
    ∀ (names : List String), (∀ n ∈ names, n ∈ t.map Tool.name) →
    ∀ a ∈ fieldsOfNames t names, ('|':Char) ∉ a := by
  intro names
  induction names with
  | nil =>
    intro _ a ha
    simp [fieldsOfNames] at ha
  | cons n rest ih =>
    intro hmem a ha
    have hm : n ∈ t.map Tool.name := hmem n (by simp)
    have hto := hreal (findTool t n) (findTool_mem t n hm)
    rcases List.mem_append.mp ha with hin | hin
    · simp only [toolFields, List.mem_cons, List.not_mem_nil, or_false] at hin
      rcases hin with h | h | h | h
      · rw [h]
        exact natStr_pipe_free _
      · rw [h]
        exact hto.1
      · rw [h]
        exact hto.2.1
      · rw [h]
        exact pyFieldStr_pipe_free _ hto.2.2
    · exact ih (fun x hx => hmem x (by simp [hx])) a hin

lemma fields_pointwise : ∀ (ns1 : List String) (ns2 : List String) (t1 t2 : List Tool),
    RealisticTools t1 → RealisticTools t2 →
    (∀ n ∈ ns1, n ∈ t1.map Tool.name) → (∀ n ∈ ns2, n ∈ t2.map Tool.name) →
    fieldsOfNames t1 ns1 = fieldsOfNames t2 ns2 →
    ns1 = ns2 ∧
      ∀ n ∈ ns1, checksumFields (findTool t1 n) = checksumFields (findTool t2 n) := by
  intro ns1
  induction ns1 with
  | nil =>
    intro ns2 t1 t2 _ _ _ _ h
    cases ns2 with
    | nil => exact ⟨rfl, by simp⟩
    | cons n2 r2 => exact absurd h.symm (fieldsOfNames_ne_nil t2 n2 r2)
  | cons n1 r1 ih =>
    intro ns2 t1 t2 hr1 hr2 hm1 hm2 h
    cases ns2 with
    | nil => exact absurd h (fieldsOfNames_ne_nil t1 n1 r1)
    | cons n2 r2 =>
      have hmn1 : n1 ∈ t1.map Tool.name := hm1 n1 (by simp)
      have hmn2 : n2 ∈ t2.map Tool.name := hm2 n2 (by simp)
      obtain ⟨hfields, htails⟩ :=
        List.append_inj h (by rw [toolFields_length, toolFields_length])
      simp only [toolFields, List.cons.injEq, and_true] at hfields
      obtain ⟨hid, hname, hdesc, hqe⟩ := hfields
      have hid' : (findTool t1 n1).id = (findTool t2 n2).id :=
        natStr_inj _ _ (string_data_inj hid)
      have hname' : (findTool t1 n1).name = (findTool t2 n2).name :=
        string_data_inj hname
      have hdesc' : (findTool t1 n1).description = (findTool t2 n2).description :=
        string_data_inj hdesc
      have hqe' : (findTool t1 n1).query_examples = (findTool t2 n2).query_examples :=
        pyFieldStr_inj _ _ (hr1 _ (findTool_mem t1 n1 hmn1)).2.2
          (hr2 _ (findTool_mem t2 n2 hmn2)).2.2 (string_data_inj hqe)
      have hn12 : n1 = n2 := by
        rw [← findTool_name t1 n1 hmn1, ← findTool_name t2 n2 hmn2, hname']
      have hcf : checksumFields (findTool t1 n1) = checksumFields (findTool t2 n2) := by
        unfold checksumFields
        rw [hid', hname', hdesc', hqe']
      obtain ⟨hr, hrest⟩ := ih r2 t1 t2 hr1 hr2
        (fun x hx => hm1 x (by simp [hx])) (fun x hx => hm2 x (by simp [hx])) htails
      refine ⟨by rw [hn12, hr], ?_⟩
      intro n hn
      rcases List.mem_cons.mp hn with hh | hh
      · rw [hh, show findTool t2 n1 = findTool t2 n2 from by rw [hn12]] at *
        exact hcf
      · exact hrest n hh

lemma lookup_eq_of_checksum_eq (t1 t2 : List Tool) (hr1 : RealisticTools t1)
    (hr2 : RealisticTools t2)
    (h : calculate_tools_checksum t1 = calculate_tools_checksum t2) :
    ∀ n : String, (t1.find? (fun x => x.name = n)).map checksumFields =
      (t2.find? (fun x => x.name = n)).map checksumFields := by
  have hdata := congrArg String.data h
  rw [checksum_data, checksum_data] at hdata
  have hm1 : ∀ n ∈ sortedNames t1, n ∈ t1.map Tool.name :=
    fun n hn => (mem_sortedNames t1 n).mp hn
  have hm2 : ∀ n ∈ sortedNames t2, n ∈ t2.map Tool.name :=
    fun n hn => (mem_sortedNames t2 n).mp hn
  have hpf1 := fieldsOfNames_pipe_free t1 hr1 (sortedNames t1) hm1
  have hpf2 := fieldsOfNames_pipe_free t2 hr2 (sortedNames t2) hm2
  have hlen : (sortedNames t1).length = (sortedNames t2).length := by
    have hc := congrArg (fun l => l.count '|') hdata
    simp only at hc
    rw [joinSep_count _ hpf1, joinSep_count _ hpf2,
      fieldsOfNames_length, fieldsOfNames_length] at hc
    omega
  have hfeq : fieldsOfNames t1 (sortedNames t1) = fieldsOfNames t2 (sortedNames t2) :=
    joinSep_inj _ _ (by rw [fieldsOfNames_length, fieldsOfNames_length, hlen])
      hpf1 hpf2 hdata
  obtain ⟨hsn, hcf⟩ := fields_pointwise (sortedNames t1) (sortedNames t2) t1 t2
    hr1 hr2 hm1 hm2 hfeq
  intro n
  by_cases hn : n ∈ t1.map Tool.name
  · have hn2 : n ∈ t2.map Tool.name := by
      rw [← mem_sortedNames, ← hsn, mem_sortedNames]
      exact hn
    rw [find?_eq_some_findTool t1 n hn, find?_eq_some_findTool t2 n hn2]
    simp only [Option.map_some']
    exact congrArg some (hcf n ((mem_sortedNames t1 n).mpr hn))
  · have hn2 : n ∉ t2.map Tool.name := by
      intro hmem
      apply hn
      rw [← mem_sortedNames, hsn, mem_sortedNames]
      exact hmem
    have e1 : t1.find? (fun x => x.name = n) = none := by
      cases hf : t1.find? (fun x => x.name = n) with
      | none => rfl
      | some e =>
        exact absurd ((find?_name_isSome t1 n).mp (by rw [hf]; rfl)) hn
    have e2 : t2.find? (fun x => x.name = n) = none := by
      cases hf : t2.find? (fun x => x.name = n) with
      | none => rfl
      | some e =>
        exact absurd ((find?_name_isSome t2 n).mp (by rw [hf]; rfl)) hn2
    rw [e1, e2]

/-- C3: on dictionaries (no duplicate names), the checksum depends
only on the name-to-fields mapping - any two datasets with the same
names mapped to the same id, description and query_examples (in any
source order) get the same checksum, because the keys are sorted
before hashing; and on realistic (separator-free) inputs the checksum
determines that mapping, so changing any single checksummed field of
any entry changes the checksum. -/
theorem checksum_stability_contract (t1 t2 : List Tool)
    (hnd1 : (t1.map Tool.name).Nodup) (hnd2 : (t2.map Tool.name).Nodup) :
    ((∀ n : String, (t1.find? (fun x => x.name = n)).map checksumFields =
        (t2.find? (fun x => x.name = n)).map checksumFields) →
      calculate_tools_checksum t1 = calculate_tools_checksum t2)
    ∧ (RealisticTools t1 → RealisticTools t2 →
      calculate_tools_checksum t1 = calculate_tools_checksum t2 →
      ∀ n : String, (t1.find? (fun x => x.name = n)).map checksumFields =
        (t2.find? (fun x => x.name = n)).map checksumFields) :=
  ⟨checksum_eq_of_lookup_eq t1 t2 hnd1 hnd2,
   fun hr1 hr2 h => lookup_eq_of_checksum_eq t1 t2 hr1 hr2 h⟩

/-- A second concrete tool, for the permutation witness. -/
def toolB : Tool :=
  { id := 2
    name := "joke"
    description := "tell a joke"
    python_function := "joke_fn"
    query_examples := .list ["tell me a joke"] }

theorem checksum_stability_contract_witness :
    calculate_tools_checksum [toolEx, toolB] = calculate_tools_checksum [toolB, toolEx] := by
  apply (checksum_stability_contract [toolEx, toolB] [toolB, toolEx]
    (by decide) (by decide)).1
  intro n
  by_cases ha : toolEx.name = n
  · by_cases hb : toolB.name = n
    · exfalso
      rw [← ha] at hb
      exact (by decide : ¬ toolB.name = toolEx.name) hb
    · simp [List.find?, ha, hb]
  · by_cases hb : toolB.name = n
    · simp [List.find?, ha, hb]
    · simp [List.find?, ha, hb]

/-! ### Message context retriever (embeddings/message_embeddings.py) -/

/-- One row of the messages table joined with the conversation title,
as read by the fetch query of MessageEmbeddingManager. -/
structure MsgRow where
  id : Nat
  conversation_id : Nat
  role : String
  content : String
  sequence_number : Nat
  created_at : Option Int
  conversation_title : Option String
  tool_name : Option String
  tool_id : Option Nat
  parent_message_id : Option Nat
deriving DecidableEq, Repr

/-- The per-message dictionary stored in the position mapping. -/
structure MsgRecord where
  id : Nat
  conversation_id : Nat
  role : String
  content : String
  original_content : String
  sequence_number : Nat
  created_at : Option Int
  conversation_title : String
  tool_name : Option String
  tool_id : Option Nat
deriving DecidableEq, Repr

/-- The SQL eligibility filter of _fetch_messages_for_embedding: role
user or assistant, content at least 10 characters, and content not
equal to the control keywords (NOT LIKE with no wildcard is plain
inequality). -/
def eligibleRow (m : MsgRow) : Bool :=
  (decide (m.role = "user") || decide (m.role = "assistant")) &&
    decide (10 ≤ m.content.length) &&
    decide (m.content ≠ "exit") && decide (m.content ≠ "help") &&
    decide (m.content ≠ "clear")

/-- Truncation of long contents before embedding. -/
def truncateContent (max_message_length : Nat) (c : String) : String :=
  if max_message_length < c.length then c.take max_message_length ++ "..." else c

/-- The message_data dictionary built for one fetched row; an empty
or missing title becomes Untitled (Python or-default). -/
def toRecord (max_message_length : Nat) (m : MsgRow) : MsgRecord :=
  { id := m.id
    conversation_id := m.conversation_id
    role := m.role
    content := truncateContent max_message_length m.content
    original_content := m.content
    sequence_number := m.sequence_number
    created_at := m.created_at
    conversation_title :=
      match m.conversation_title with
      | some t => if t = "" then "Untitled" else t
      | none => "Untitled"
    tool_name := m.tool_name
    tool_id := m.tool_id }

/-- The method _fetch_messages_for_embedding: eligible rows with id
above the watermark, ordered by id ascending, each turned into a
record. -/
def fetch_messages_for_embedding (max_message_length : Nat) (db : List MsgRow)
    (since_message_id : Nat) : List MsgRecord :=
  (((db.filter (fun m => decide (since_message_id < m.id) && eligibleRow m)).mergeSort
      (fun a b => decide (a.id ≤ b.id))).map (toRecord max_message_length))

/-- The enhanced text embedded for a message: role-prefixed content,
with the conversation title prepended when present and not the
default. -/
def enhancedText (m : MsgRecord) : String :=
  if m.conversation_title ≠ "" ∧ m.conversation_title ≠ "Untitled" then
    "[" ++ m.conversation_title ++ "] " ++ (m.role ++ ": " ++ m.content)
  else m.role ++ ": " ++ m.content

/-- The metadata document written by _save_index_to_disk. -/
structure MsgMetadataDoc where
  embedding_model : Option String
  message_count : Nat
  last_indexed_message_id : Nat
  vector_dimension : Nat
  max_message_length : Nat
deriving DecidableEq, Repr

/-- The three persisted artifacts of the message index. -/
structure MsgArtifacts where
  index_file : List (List ℚ)
  mapping_file : List MsgRecord
  metadata : MsgMetadataDoc
deriving DecidableEq, Repr

/-- The in-memory state of MessageEmbeddingManager: the FAISS vectors,
the position mapping (position i is entry i), the incremental
watermark, the index dimension, and the currently persisted artifacts
(none when nothing readable is on disk). -/
structure MessageState where
  index : List (List ℚ)
  message_mapping : List MsgRecord
  last_indexed_message_id : Nat
  dim : Nat
  artifacts : Option MsgArtifacts
deriving DecidableEq, Repr

/-- The artifacts written by _save_index_to_disk for a state. -/
def savedArtifacts (embedding_model : String) (max_message_length : Nat)
    (s : MessageState) : MsgArtifacts :=
  { index_file := s.index
    mapping_file := s.message_mapping
    metadata :=
      { embedding_model := some embedding_model
        message_count := s.message_mapping.length
        last_indexed_message_id := s.last_indexed_message_id
        vector_dimension := s.dim
        max_message_length := max_message_length } }

/-- The method _update_index_incrementally (the catch-up of the
specification): fetch eligible messages above the watermark; when none
exist do nothing at all; otherwise embed them, append vectors and
mapping entries, advance the watermark to the new maximum id, and
persist the updated artifacts. -/
def update_index_incrementally (encode : String → List ℚ) (embedding_model : String)
    (max_message_length : Nat) (db : List MsgRow) (s : MessageState) : MessageState :=
  let new_messages := fetch_messages_for_embedding max_message_length db
    s.last_indexed_message_id
  if new_messages = [] then s
  else
    let new_embeddings := new_messages.map (fun m => encode (enhancedText m))
    let s' : MessageState :=
      { index := s.index ++ new_embeddings
        message_mapping := s.message_mapping ++ new_messages
        last_indexed_message_id := (new_messages.map MsgRecord.id).foldl max 0
        dim := s.dim
        artifacts := s.artifacts }
    { s' with artifacts := some (savedArtifacts embedding_model max_message_length s') }

/-- Squared Euclidean distance, the FAISS IndexFlatL2 metric. -/
def sqDist (a b : List ℚ) : ℚ :=
  ((a.zip b).map (fun p => (p.1 - p.2) * (p.1 - p.2))).sum

/-- Exact k-nearest-neighbor search over the stored vectors:
(position, squared distance) pairs ascending by distance, ties in
insertion order (stable sort), truncated to k.  Because the caller
passes k at most the vector count, no sentinel -1 entries arise. -/
def faissSearch (index : List (List ℚ)) (query_vector : List ℚ) (k : Nat) :
    List (Nat × ℚ) :=
  (((index.enum.map (fun p => (p.1, sqDist query_vector p.2))).mergeSort
      (fun a b => decide (a.2 ≤ b.2))).take k)

/-- One search result of search_similar_messages. -/
structure SimResult where
  message : MsgRecord
  similarity_score : ℚ
  search_rank : Nat
  l2_distance : ℚ
deriving DecidableEq, Repr

/-- The result-processing loop of search_similar_messages: skip
positions missing from the mapping, skip results under the similarity
threshold, in an excluded conversation, or older than the cutoff;
append the rest with their rank and stop after k results. -/
def collectSimilar (mapping : List MsgRecord) (exclude_conversation_ids : List Nat)
    (min_similarity_score : ℚ) (cutoff_date : Option Int) (k : Nat) :
    List (Nat × ℚ) → List SimResult → List SimResult
  | [], acc => acc
  | (idx, dist) :: rest, acc =>
    match mapping.get? idx with
    | none => collectSimilar mapping exclude_conversation_ids min_similarity_score
        cutoff_date k rest acc
    | some msg =>
      let similarity_score := max 0 (1 - dist / 2)
      if similarity_score < min_similarity_score then
        collectSimilar mapping exclude_conversation_ids min_similarity_score
          cutoff_date k rest acc
      else if msg.conversation_id ∈ exclude_conversation_ids then
        collectSimilar mapping exclude_conversation_ids min_similarity_score
          cutoff_date k rest acc
      else if (match cutoff_date, msg.created_at with
          | some cutoff, some d => decide (d < cutoff)
          | _, _ => false) then
        collectSimilar mapping exclude_conversation_ids min_similarity_score
          cutoff_date k rest acc
      else
        let acc' := acc ++ [{ message := msg
                              similarity_score := similarity_score
                              search_rank := acc.length + 1
                              l2_distance := dist }]
        if k ≤ acc'.length then acc'
        else collectSimilar mapping exclude_conversation_ids min_similarity_score
          cutoff_date k rest acc'

/-- The method search_similar_messages (find_similar of the
specification).  Python defaults: k = 5, min_similarity_score = 0.3,
max_age_days = 30.  When the in-memory index holds no vectors it
returns the empty result at once; otherwise it first runs the
incremental update, then encodes the query and searches
min(3k, count) neighbors.  The cutoff is now minus max_age_days (time
as abstract integer instants, days as units).  Returns the results
and the state the call leaves behind. -/
def search_similar_messages (encode : String → List ℚ) (embedding_model : String)
    (max_message_length : Nat) (db : List MsgRow) (now : Int) (s : MessageState)
    (query : String) (k : Nat) (exclude_conversation_ids : List Nat)
    (min_similarity_score : ℚ) (max_age_days : Option Nat) :
    List SimResult × MessageState :=
  if s.index.length = 0 then ([], s)
  else
    let s' := update_index_incrementally encode embedding_model max_message_length db s
    let query_embedding := encode query
    let search_k := min (k * 3) s'.index.length
    let cutoff_date : Option Int := max_age_days.map (fun d => now - (d : Int))
    (collectSimilar s'.message_mapping exclude_conversation_ids min_similarity_score
      cutoff_date k (faissSearch s'.index query_embedding search_k) [], s')

/-- The method _find_assistant_response_for_user_message: the first
assistant message linked by parent_message_id, ordered by sequence
number. -/
def find_assistant_response_for_user_message (db : List MsgRow)
    (user_message_id : Nat) : Option MsgRow :=
  (((db.filter (fun m => decide (m.parent_message_id = some user_message_id) &&
      decide (m.role = "assistant"))).mergeSort
        (fun a b => decide (a.sequence_number ≤ b.sequence_number))).head?)

/-- A conversation pair emitted by
get_contextual_messages_for_response. -/
structure ContextPair where
  user_message : String
  assistant_response : String
  tool_name : Option String
  tool_id : Option Nat
deriving DecidableEq, Repr

/-- The conversation pair emitted for a user-role result and its
linked assistant row. -/
def mkContextPair (r : SimResult) (a : MsgRow) : ContextPair :=
  { user_message := r.message.content
    assistant_response := a.content
    tool_name := a.tool_name
    tool_id := a.tool_id }

/-- The pairing loop of get_contextual_messages_for_response: keep
user-role results while fewer than max_context_pairs pairs exist,
pair each with its linked assistant response, and skip candidates
without one. -/
def pairLoop (db : List MsgRow) (max_context_pairs : Nat) :
    List SimResult → List ContextPair → List ContextPair
  | [], acc => acc
  | r :: rest, acc =>
    if r.message.role ≠ "user" ∨ max_context_pairs ≤ acc.length then
      pairLoop db max_context_pairs rest acc
    else
      match find_assistant_response_for_user_message db r.message.id with
      | some a => pairLoop db max_context_pairs rest (acc ++ [mkContextPair r a])
      | none => pairLoop db max_context_pairs rest acc

/-- The method get_contextual_messages_for_response (contextual_pairs
of the specification), Python default max_context_pairs = 3. -/
def get_contextual_messages_for_response (encode : String → List ℚ)
    (embedding_model : String) (max_message_length : Nat) (db : List MsgRow)
    (now : Int) (s : MessageState) (user_query : String)
    (current_conversation_id : Nat) (max_context_pairs : Nat) : List ContextPair :=
  pairLoop db max_context_pairs
    ((search_similar_messages encode embedding_model max_message_length db now s
      user_query (max_context_pairs * 2) [current_conversation_id] (6/10)
      (some 7)).1) []

/-- The three persisted artifacts of the message index as found on
disk at construction time; none models a missing file, and a file
content of none models a read or parse that raises. -/
structure MsgPersisted where
  index_file : Option (DiskFile (List (List ℚ)))
  metadata_file : Option (DiskFile MsgMetadataDoc)
  mapping_file : Option (DiskFile (List MsgRecord))

/-- The readable on-disk triple viewed as current artifacts. -/
def artifactsOfPersisted (p : MsgPersisted) : Option MsgArtifacts :=
  match p.index_file, p.metadata_file, p.mapping_file with
  | some fi, some fm, some fmap =>
    match fi.content, fm.content, fmap.content with
    | some idx, some meta, some mapping =>
      some { index_file := idx, mapping_file := mapping, metadata := meta }
    | _, _, _ => none
  | _, _, _ => none

/-- The method _load_persisted_index of MessageEmbeddingManager: the
only validation on this path is that all three files exist and the
recorded embedding model name matches; entry counts, checksums and
byte sizes are not consulted.  Any raising read yields the invalid
result. -/
def load_persisted_index (p : MsgPersisted) (embedding_model : String) :
    Option (List (List ℚ) × List MsgRecord) :=
  match p.index_file, p.metadata_file, p.mapping_file with
  | some fi, some fm, some fmap =>
    match fm.content with
    | none => none
    | some meta =>
      if meta.embedding_model ≠ some embedding_model then none
      else
        match fi.content, fmap.content with
        | some idx, some mapping => some (idx, mapping)
        | _, _ => none
  | _, _, _ => none

/-- The empty index created by _create_empty_index (dimension 384, no
artifacts written, so the readable disk content stays). -/
def emptyMessageState (kept : Option MsgArtifacts) : MessageState :=
  { index := [], message_mapping := [], last_indexed_message_id := 0,
    dim := 384, artifacts := kept }

/-- The method _build_index_from_scratch: embed every eligible
message; with no messages fall back to the empty index without
persisting; otherwise build the index, set the watermark to the
maximum id, and persist. -/
def build_index_from_scratch (encode : String → List ℚ) (embedding_model : String)
    (max_message_length : Nat) (db : List MsgRow) (kept : Option MsgArtifacts) :
    MessageState :=
  let messages := fetch_messages_for_embedding max_message_length db 0
  if messages = [] then emptyMessageState kept
  else
    let embeddings := messages.map (fun m => encode (enhancedText m))
    let s' : MessageState :=
      { index := embeddings
        message_mapping := messages
        last_indexed_message_id := (messages.map MsgRecord.id).foldl max 0
        dim := ((embeddings.head?.map List.length).getD 384)
        artifacts := kept }
    { s' with artifacts := some (savedArtifacts embedding_model max_message_length s') }

/-- The in-memory state adopted from a successful light-validation
load, before the incremental catch-up. -/
def loadedState (p : MsgPersisted) (idx : List (List ℚ)) (mapping : List MsgRecord) :
    MessageState :=
  { index := idx
    message_mapping := mapping
    last_indexed_message_id :=
      if mapping = [] then 0 else (mapping.map MsgRecord.id).foldl max 0
    dim := ((idx.head?.map List.length).getD 384)
    artifacts := artifactsOfPersisted p }

/-- The method _initialize_index: try the light-validation load; on
success with a non-empty mapping adopt the loaded state and run the
incremental catch-up; otherwise (including a loaded empty mapping,
which Python truthiness treats as a failed load) rebuild from
scratch. -/
def initialize_index (encode : String → List ℚ) (embedding_model : String)
    (max_message_length : Nat) (p : MsgPersisted) (db : List MsgRow) : MessageState :=
  match load_persisted_index p embedding_model with
  | some (idx, mapping) =>
    if mapping = [] then
      build_index_from_scratch encode embedding_model max_message_length db
        (artifactsOfPersisted p)
    else
      update_index_incrementally encode embedding_model max_message_length db
        (loadedState p idx mapping)
  | none =>
    build_index_from_scratch encode embedding_model max_message_length db
      (artifactsOfPersisted p)

lemma update_noop (encode : String → List ℚ) (em : String) (ml : Nat)
    (db : List MsgRow) (s : MessageState)
    (hfe : fetch_messages_for_embedding ml db s.last_indexed_message_id = []) :
    update_index_incrementally encode em ml db s = s := by
  simp only [update_index_incrementally]
  rw [hfe]
  rfl

/-- C6: when no eligible message has an id above the watermark, the
incremental catch-up is a no-op - the vectors, the position mapping,
the watermark and the persisted artifacts are all left untouched, no
duplicates are appended, and a second call behaves the same as one
call. -/
theorem catch_up_noop_contract (encode : String → List ℚ) (em : String) (ml : Nat)
    (db : List MsgRow) (s : MessageState)
    (h : ∀ m ∈ db, s.last_indexed_message_id < m.id → eligibleRow m = false) :
    update_index_incrementally encode em ml db s = s
    ∧ (update_index_incrementally encode em ml db s).index = s.index
    ∧ (update_index_incrementally encode em ml db s).message_mapping = s.message_mapping
    ∧ (update_index_incrementally encode em ml db s).last_indexed_message_id =
        s.last_indexed_message_id
    ∧ (update_index_incrementally encode em ml db s).artifacts = s.artifacts
    ∧ update_index_incrementally encode em ml db
        (update_index_incrementally encode em ml db s) =
        update_index_incrementally encode em ml db s := by
  have hfe : fetch_messages_for_embedding ml db s.last_indexed_message_id = [] := by
    unfold fetch_messages_for_embedding
    rw [show db.filter
        (fun m => decide (s.last_indexed_message_id < m.id) && eligibleRow m) = []
      from List.filter_eq_nil_iff.mpr (by
        intro m hm
        simp only [Bool.and_eq_true, decide_eq_true_eq, not_and]
        intro hlt
        rw [h m hm hlt]
        simp)]
    simp
  have h1 : update_index_incrementally encode em ml db s = s := update_noop encode em ml db s hfe
  refine ⟨h1, by rw [h1], by rw [h1], by rw [h1], by rw [h1], ?_⟩
  rw [h1]
  exact h1

/-- A concrete message row for witnesses: eligible, id 3. -/
def rowEx : MsgRow :=
  { id := 3
    conversation_id := 1
    role := "user"
    content := "hello world message"
    sequence_number := 1
    created_at := some 0
    conversation_title := some "Trip"
    tool_name := none
    tool_id := none
    parent_message_id := none }

/-- A message state whose watermark is already past rowEx. -/
def msgStateEx : MessageState :=
  { index := [[1]]
    message_mapping := [toRecord 500 rowEx]
    last_indexed_message_id := 5
    dim := 1
    artifacts := none }

theorem catch_up_noop_contract_witness :
    update_index_incrementally (fun _ => [1]) "all-MiniLM-L6-v2" 500 [rowEx]
      msgStateEx = msgStateEx :=
  (catch_up_noop_contract (fun _ => [1]) "all-MiniLM-L6-v2" 500 [rowEx] msgStateEx
    (by
      intro m hm hlt
      rw [List.mem_singleton] at hm
      subst hm
      exact absurd hlt (by decide))).1

/-- C7 counterexample: with the in-memory index holding zero vectors
and one new eligible message in the source, find_similar returns at
once with the state unchanged (watermark still 0), while the catch-up
the claim promises would have advanced the watermark to 3 - so
find_similar does not perform the incremental catch-up when the index
is empty. -/
theorem find_similar_empty_index_counterexample :
    (search_similar_messages (fun _ => [1]) "all-MiniLM-L6-v2" 500 [rowEx] 0
        (emptyMessageState none) "query" 5 [] (3/10) (some 30)).2 =
      emptyMessageState none
    ∧ (emptyMessageState none).last_indexed_message_id = 0
    ∧ (update_index_incrementally (fun _ => [1]) "all-MiniLM-L6-v2" 500 [rowEx]
        (emptyMessageState none)).last_indexed_message_id = 3 := by
  refine ⟨rfl, rfl, ?_⟩
  have hfetch : fetch_messages_for_embedding 500 [rowEx] 0 = [toRecord 500 rowEx] := by
    unfold fetch_messages_for_embedding
    rw [show [rowEx].filter (fun m => decide ((0:Nat) < m.id) && eligibleRow m) =
      [rowEx] from by decide]
    rw [List.mergeSort_singleton]
    rfl
  simp only [update_index_incrementally, emptyMessageState]
  rw [hfetch]
  rfl

/-- C7 (amended): find_similar performs the incremental catch-up
before encoding the query and searching, for every state in which the
in-memory index holds at least one vector; the search then runs
against the caught-up state and that state is what the call leaves
behind.  When the index holds zero vectors the call returns the empty
result immediately and performs no catch-up. -/
theorem find_similar_catch_up_contract (encode : String → List ℚ) (em : String)
    (ml : Nat) (db : List MsgRow) (now : Int) (s : MessageState) (q : String)
    (k : Nat) (excl : List Nat) (ms : ℚ) (age : Option Nat) :
    (s.index.length ≠ 0 →
      search_similar_messages encode em ml db now s q k excl ms age =
        (collectSimilar
            (update_index_incrementally encode em ml db s).message_mapping excl ms
            (age.map (fun d => now - (d : Int))) k
            (faissSearch (update_index_incrementally encode em ml db s).index
              (encode q)
              (min (k * 3) (update_index_incrementally encode em ml db s).index.length))
            [],
          update_index_incrementally encode em ml db s))
    ∧ (s.index.length = 0 →
      search_similar_messages encode em ml db now s q k excl ms age = ([], s)) := by
  constructor
  · intro h
    unfold search_similar_messages
    rw [if_neg h]
  · intro h
    unfold search_similar_messages
    rw [if_pos h]

theorem find_similar_catch_up_contract_witness :
    search_similar_messages (fun _ => [1]) "all-MiniLM-L6-v2" 500 [rowEx] 0
        msgStateEx "query" 5 [] (3/10) (some 30) =
      (collectSimilar
          (update_index_incrementally (fun _ => [1]) "all-MiniLM-L6-v2" 500 [rowEx]
            msgStateEx).message_mapping [] (3/10)
          ((some 30).map (fun d => (0:Int) - (d : Int))) 5
          (faissSearch
            (update_index_incrementally (fun _ => [1]) "all-MiniLM-L6-v2" 500 [rowEx]
              msgStateEx).index ((fun _ => ([1]:List ℚ)) "query")
            (min (5 * 3)
              (update_index_incrementally (fun _ => [1]) "all-MiniLM-L6-v2" 500 [rowEx]
                msgStateEx).index.length))
          [],
        update_index_incrementally (fun _ => [1]) "all-MiniLM-L6-v2" 500 [rowEx]
          msgStateEx) :=
  (find_similar_catch_up_contract (fun _ => [1]) "all-MiniLM-L6-v2" 500 [rowEx] 0
    msgStateEx "query" 5 [] (3/10) (some 30)).1 (by decide)

/-- The record of rowEx as stored in a persisted mapping. -/
def recEx : MsgRecord := toRecord 500 rowEx

/-- Persisted message metadata whose entry count (99) disagrees with
the current source, under the correct model name. -/
def msgMetaMismatch : MsgMetadataDoc :=
  { embedding_model := some "all-MiniLM-L6-v2"
    message_count := 99
    last_indexed_message_id := 3
    vector_dimension := 1
    max_message_length := 500 }

/-- A persisted message index carrying that mismatched metadata. -/
def pMismatch : MsgPersisted :=
  { index_file := some { content := some [[1]], size := 10 }
    metadata_file := some { content := some msgMetaMismatch, size := 5 }
    mapping_file := some { content := some [recEx], size := 7 } }

lemma load_pMismatch :
    load_persisted_index pMismatch "all-MiniLM-L6-v2" = some ([[1]], [recEx]) := rfl

/-- C8 counterexample: a persisted message index whose recorded entry
count (99) disagrees with the current source snapshot (empty, zero
eligible messages) is accepted anyway - construction keeps the loaded
one-entry mapping, while the full rebuild the claim requires would
produce an empty mapping. -/
theorem message_construction_counterexample :
    msgMetaMismatch.message_count ≠ ([] : List MsgRow).length
    ∧ (initialize_index (fun _ => [1]) "all-MiniLM-L6-v2" 500 pMismatch
        []).message_mapping = [recEx]
    ∧ (build_index_from_scratch (fun _ => [1]) "all-MiniLM-L6-v2" 500 []
        (artifactsOfPersisted pMismatch)).message_mapping = [] := by
  have hfetch0 : ∀ since : Nat, fetch_messages_for_embedding 500 [] since = [] := by
    intro since
    unfold fetch_messages_for_embedding
    simp
  refine ⟨by decide, ?_, ?_⟩
  · unfold initialize_index
    rw [load_pMismatch]
    dsimp only
    rw [if_neg (by decide)]
    rw [update_noop _ _ _ _ _ (hfetch0 _)]
    rfl
  · unfold build_index_from_scratch
    rw [hfetch0 0]
    rfl

/-- C8 (amended): construction accepts persisted artifacts after
checking only that the three files exist and parse and that the
recorded embedding model name matches (plus, through Python
truthiness, that the loaded mapping is non-empty); entry counts,
content checksums and byte sizes are not consulted on this path.  On
an accepted load the loaded state is adopted and the incremental
catch-up runs before queries are served; on any failed check the
index is rebuilt from every eligible message. -/
theorem message_initialize_contract (encode : String → List ℚ) (em : String)
    (ml : Nat) (p : MsgPersisted) (db : List MsgRow) :
    (load_persisted_index p em = none →
      initialize_index encode em ml p db =
        build_index_from_scratch encode em ml db (artifactsOfPersisted p))
    ∧ (∀ idx mapping, load_persisted_index p em = some (idx, mapping) → mapping = [] →
      initialize_index encode em ml p db =
        build_index_from_scratch encode em ml db (artifactsOfPersisted p))
    ∧ (∀ idx mapping, load_persisted_index p em = some (idx, mapping) → mapping ≠ [] →
      initialize_index encode em ml p db =
        update_index_incrementally encode em ml db (loadedState p idx mapping))
    ∧ (p.index_file = none → load_persisted_index p em = none)
    ∧ (p.metadata_file = none → load_persisted_index p em = none)
    ∧ (p.mapping_file = none → load_persisted_index p em = none)
    ∧ (∀ fm meta, p.metadata_file = some fm → fm.content = some meta →
        meta.embedding_model ≠ some em → load_persisted_index p em = none)
    ∧ (∀ idx mapping, load_persisted_index p em = some (idx, mapping) →
        ∃ fi fm fmap meta, p.index_file = some fi ∧ p.metadata_file = some fm ∧
          p.mapping_file = some fmap ∧ fm.content = some meta ∧
          meta.embedding_model = some em ∧ fi.content = some idx ∧
          fmap.content = some mapping) := by
  obtain ⟨oif, omf, opf⟩ := p
  refine ⟨?_, ?_, ?_, ?_, ?_, ?_, ?_, ?_⟩
  · intro h
    unfold initialize_index
    rw [h]
  · intro idx mapping h hm
    unfold initialize_index
    rw [h]
    dsimp only
    rw [if_pos hm]
  · intro idx mapping h hm
    unfold initialize_index
    rw [h]
    dsimp only
    rw [if_neg hm]
  · intro h
    cases h
    cases omf <;> cases opf <;> rfl
  · intro h
    cases h
    cases oif <;> cases opf <;> rfl
  · intro h
    cases h
    cases oif <;> cases omf <;> rfl
  · intro fm meta hm hc hne
    cases hm
    cases oif with
    | none => rfl
    | some fi =>
      cases opf with
      | none => rfl
      | some fmap =>
        simp only [load_persisted_index]
        rw [hc]
        dsimp only
        rw [if_pos hne]
  · intro idx mapping h
    cases oif with
    | none => exact absurd h (by simp [load_persisted_index])
    | some fi =>
      cases omf with
      | none => exact absurd h (by simp [load_persisted_index])
      | some fm =>
        cases opf with
        | none => exact absurd h (by simp [load_persisted_index])
        | some fmap =>
          simp only [load_persisted_index] at h
          cases hfmc : fm.content with
          | none =>
            rw [hfmc] at h
            exact absurd h (by simp)
          | some meta =>
            rw [hfmc] at h
            dsimp only at h
            by_cases hne : meta.embedding_model ≠ some em
            · rw [if_pos hne] at h
              exact absurd h (by simp)
            · rw [if_neg hne] at h
              rw [not_not] at hne
              cases hfic : fi.content with
              | none =>
                rw [hfic] at h
                exact absurd h (by simp)
              | some idx2 =>
                rw [hfic] at h
                cases hpc : fmap.content with
                | none =>
                  rw [hpc] at h
                  exact absurd h (by simp)
                | some mp2 =>
                  rw [hpc] at h
                  dsimp only at h
                  injection h with h
                  have ha : idx2 = idx := congrArg Prod.fst h
                  have hb : mp2 = mapping := congrArg Prod.snd h
                  exact ⟨fi, fm, fmap, meta, rfl, rfl, rfl, hfmc, hne,
                    by rw [hfic, ha], by rw [hpc, hb]⟩

theorem message_initialize_contract_witness :
    initialize_index (fun _ => [1]) "all-MiniLM-L6-v2" 500 pMismatch [] =
      update_index_incrementally (fun _ => [1]) "all-MiniLM-L6-v2" 500 []
        (loadedState pMismatch [[1]] [recEx]) :=
  (message_initialize_contract (fun _ => [1]) "all-MiniLM-L6-v2" 500 pMismatch
    []).2.2.1 [[1]] [recEx] load_pMismatch (by decide)

lemma pairLoop_eq_take (db : List MsgRow) (maxp : Nat) :
    ∀ (l : List SimResult) (acc : List ContextPair),
    pairLoop db maxp l acc =
      acc ++ ((l.filter (fun r => decide (r.message.role = "user"))).filterMap
        (fun r => (find_assistant_response_for_user_message db r.message.id).map
          (mkContextPair r))).take (maxp - acc.length) := by
  intro l
  induction l with
  | nil =>
    intro acc
    simp [pairLoop]
  | cons r rest ih =>
    intro acc
    by_cases hrole : r.message.role = "user"
    · by_cases hfull : maxp ≤ acc.length
      · simp only [pairLoop]
        rw [if_pos (Or.inr hfull), ih acc, show maxp - acc.length = 0 from by omega]
        simp
      · cases hfa : find_assistant_response_for_user_message db r.message.id with
        | none =>
          simp only [pairLoop]
          rw [if_neg (not_or.mpr ⟨not_not.mpr hrole, hfull⟩), hfa]
          rw [ih acc]
          simp [List.filter_cons, hrole, List.filterMap_cons, hfa]
        | some a =>
          simp only [pairLoop]
          rw [if_neg (not_or.mpr ⟨not_not.mpr hrole, hfull⟩), hfa]
          dsimp only
          rw [ih (acc ++ [mkContextPair r a])]
          simp only [List.filter_cons, hrole, decide_True, if_pos, List.filterMap_cons,
            hfa, Option.map_some', List.length_append, List.length_singleton,
            List.append_assoc, List.singleton_append]
          rw [show maxp - acc.length = (maxp - (acc.length + 1)) + 1 from by omega]
          rw [List.take_succ_cons]
    · simp only [pairLoop]
      rw [if_pos (Or.inl hrole), ih acc]
      simp [List.filter_cons, hrole]

/-- C9: contextual pair retrieval asks find_similar for 2 times
max_pairs candidates, excluding the current conversation, with
minimum similarity 0.6 and maximum age 7 days; it keeps only
user-role results, pairs each with the first assistant message linked
by parent id in sequence order, emits the user content, assistant
content, tool name and tool id, returns at most max_pairs pairs, and
a candidate without a linked assistant response is skipped without
counting against max_pairs (the output is the first max_pairs
successfully paired candidates). -/
theorem contextual_pairs_contract (encode : String → List ℚ) (em : String) (ml : Nat)
    (db : List MsgRow) (now : Int) (s : MessageState) (q : String) (cid : Nat)
    (maxp : Nat) :
    (get_contextual_messages_for_response encode em ml db now s q cid maxp =
      pairLoop db maxp ((search_similar_messages encode em ml db now s q (maxp * 2)
        [cid] (6/10) (some 7)).1) [])
    ∧ (get_contextual_messages_for_response encode em ml db now s q cid maxp =
      ((((search_similar_messages encode em ml db now s q (maxp * 2) [cid] (6/10)
          (some 7)).1).filter (fun r => decide (r.message.role = "user"))).filterMap
        (fun r => (find_assistant_response_for_user_message db r.message.id).map
          (mkContextPair r))).take maxp)
    ∧ (get_contextual_messages_for_response encode em ml db now s q cid maxp).length
        ≤ maxp := by
  have h2 : get_contextual_messages_for_response encode em ml db now s q cid maxp =
      ((((search_similar_messages encode em ml db now s q (maxp * 2) [cid] (6/10)
          (some 7)).1).filter (fun r => decide (r.message.role = "user"))).filterMap
        (fun r => (find_assistant_response_for_user_message db r.message.id).map
          (mkContextPair r))).take maxp := by
    unfold get_contextual_messages_for_response
    rw [pairLoop_eq_take]
    simp
  refine ⟨rfl, h2, ?_⟩
  rw [h2]
  calc (((((search_similar_messages encode em ml db now s q (maxp * 2) [cid] (6/10)
          (some 7)).1).filter (fun r => decide (r.message.role = "user"))).filterMap
        (fun r => (find_assistant_response_for_user_message db r.message.id).map
          (mkContextPair r))).take maxp).length
      ≤ maxp := by
        rw [List.length_take]
        exact min_le_left maxp _

end PhiAssistant
